import Mathlib

/-!
Verification development for a personal-finance ledger (accounts, categorized
income/expense transactions, category lists, with full-store persistence).

The definitions below are a shallow embedding of the application code:

* `app/utility.py`    — string normalization and amount validation,
* `app/models.py`     — `Account`, `Transaction`, `TransactionType`,
* `app/services/*.py` — the account / category / transaction / filter services,
* `app/money_manager.py` — the shared store.

Modelling conventions:

* Monetary amounts are exact integers counting cents: Python's
  `Decimal(x).quantize(Decimal("0.01"), ROUND_HALF_UP)` is modelled by parsing
  the decimal string to `mantissa * 10 ^ exponent` and rounding half-up (ties
  away from zero, as in `decimal.ROUND_HALF_UP`) to an integer number of cents.
* Python objects are modelled by value with explicit identities: every
  `Transaction` object carries an object identity `oid`; the lists
  `MoneyManager.transactions` and the service-cached `TransactionService.transactions`
  are lists of `oid`s resolved against a heap of transaction objects, so that
  the aliasing between the two lists (they start as the same list object, and
  `AccountService.delete_account` rebinds the manager's attribute to a fresh
  list) is represented faithfully: `mmList = none` means the manager's
  attribute still aliases the service list.
* `Transaction.account` is an object reference in the source; it is modelled
  by the account's name, which is a unique key of the live accounts dict.
* ASCII case mapping (`Char.toUpper`/`Char.toLower`) models Python's
  `str.capitalize`/`str.lower`, and `Char.isWhitespace` models the whitespace
  set of `str.strip`.
* Persistence (`MoneyManager._save_data`) writes a serialization of
  `self.accounts`, `self.transactions` (the manager's list), and the two
  category lists; `saved_transactions` below models the `transactions` field
  of that serialization.
-/

namespace MoneyApp

/-- Error taxonomy. `app/exception.py` is not part of the sources; modelled
from the spec's closed error taxonomy (`InvalidInput`, `NotFound`,
`AlreadyExists`, `CategoryInUse`). `invalidOperation` additionally models
Python's `decimal.InvalidOperation`, the exception `Decimal(...)`/`quantize`
raises on an unparseable amount string, which is not part of the taxonomy and
is not converted by the code. -/
inductive Err where
  | invalidInput
  | notFound
  | alreadyExists
  | categoryInUse
  | invalidOperation
deriving Repr, DecidableEq

/-- `TransactionType` enum from `app/models.py`. -/
inductive TransactionType where
  | income
  | expense
deriving Repr, DecidableEq

/-! ### String utilities (modelling Python `str` methods) -/

/-- Python `str.strip` on a character list: drop whitespace from both ends. -/
def pyStripList (l : List Char) : List Char :=
  ((l.dropWhile Char.isWhitespace).reverse.dropWhile Char.isWhitespace).reverse

/-- Python `str.strip`. -/
def pyStrip (s : String) : String :=
  (pyStripList s.toList).asString

/-- Python `str.capitalize` on a character list: first character uppercased,
the rest lowercased. -/
def pyCapitalizeList : List Char → List Char
  | [] => []
  | c :: cs => Char.toUpper c :: cs.map Char.toLower

/-- Python `str.capitalize`. -/
def pyCapitalize (s : String) : String :=
  (pyCapitalizeList s.toList).asString

/-- Python `str.lower`. -/
def pyLower (s : String) : String :=
  (s.toList.map Char.toLower).asString

/-! ### Amount parsing (`app/utility.py`) -/

/-- Optional leading sign of a numeric literal. -/
def parseSignChar : List Char → Int × List Char
  | '+' :: r => (1, r)
  | '-' :: r => (-1, r)
  | l => (1, l)

/-- Split a character list into its leading run of digits and the rest. -/
def spanDigits (l : List Char) : List Char × List Char :=
  (l.takeWhile Char.isDigit, l.dropWhile Char.isDigit)

/-- Numeric value of a digit run. -/
def digitsToNat (l : List Char) : Nat :=
  l.foldl (fun acc c => 10 * acc + (c.toNat - 48)) 0

/-- Parse the optional exponent tail of a decimal literal (empty, or
`e`/`E` followed by an optionally signed digit run ending the string). -/
def parseExpTail (l : List Char) : Option Int :=
  match l with
  | [] => some 0
  | c :: rest =>
    if c = 'e' ∨ c = 'E' then
      let p := parseSignChar rest
      let q := spanDigits p.2
      if q.1 = [] ∨ q.2 ≠ [] then none
      else some (p.1 * (digitsToNat q.1 : Int))
    else none

/-- Parse a decimal numeric string (as accepted by Python's `Decimal`
constructor: optional surrounding whitespace, optional sign, digits with an
optional fractional part, optional exponent) into `(mantissa, exponent)` with
value `mantissa * 10 ^ exponent`. Returns `none` when the string does not
parse, in which case `Decimal(...)` raises `decimal.InvalidOperation`. -/
def parseDecimal (s : String) : Option (Int × Int) :=
  let l := (pyStrip s).toList
  let sp := parseSignChar l
  let ipp := spanDigits sp.2
  match ipp.2 with
  | '.' :: r2 =>
    let fpp := spanDigits r2
    if ipp.1 = [] ∧ fpp.1 = [] then none
    else (parseExpTail fpp.2).map
      (fun e => (sp.1 * (digitsToNat (ipp.1 ++ fpp.1) : Int), e - (fpp.1.length : Int)))
  | r1 =>
    if ipp.1 = [] then none
    else (parseExpTail r1).map (fun e => (sp.1 * (digitsToNat ipp.1 : Int), e))

/-- Round `m / d` to the nearest integer with ties away from zero
(`decimal.ROUND_HALF_UP`); `d` is positive. -/
def roundHalfUpAway (m : Int) (d : Nat) : Int :=
  if 0 ≤ m then ((2 * m.toNat + d) / (2 * d) : Nat)
  else -(((2 * (-m).toNat + d) / (2 * d) : Nat) : Int)

/-- Quantize the value `n * 10 ^ e` to cents with `ROUND_HALF_UP`. -/
def quantizeCents (n e : Int) : Int :=
  if 0 ≤ e + 2 then n * (10 : Int) ^ (e + 2).toNat
  else roundHalfUpAway n (10 ^ (-(e + 2)).toNat)

/-- `format_amount` from `app/utility.py`:
`Decimal(amount).quantize(Decimal("0.01"), rounding=ROUND_HALF_UP)`, in cents.
`none` models the `decimal.InvalidOperation` raised on an unparseable string. -/
def format_amount (s : String) : Option Int :=
  (parseDecimal s).map (fun p => quantizeCents p.1 p.2)

/-- `validate_non_empty_string` from `app/utility.py`: strip, capitalize,
fail with `InvalidInputError` when the result is empty. -/
def validate_non_empty_string (value : String) : Except Err String :=
  let stripped_value := pyCapitalize (pyStrip value)
  if stripped_value = "" then .error .invalidInput else .ok stripped_value

/-- `validate_transaction_type` from `app/utility.py`: case-insensitive,
trimmed; `InvalidInputError` on any other token. -/
def validate_transaction_type (input : String) : Except Err TransactionType :=
  let t := pyLower (pyStrip input)
  if t = "income" then .ok .income
  else if t = "expense" then .ok .expense
  else .error .invalidInput

/-- `validate_non_negative_amount` from `app/utility.py`: `format_amount`
first (whose `decimal.InvalidOperation` on an unparseable string propagates
unconverted), then `InvalidInputError` if the amount is negative. -/
def validate_non_negative_amount (amount : String) : Except Err Int :=
  match format_amount amount with
  | none => .error .invalidOperation
  | some d => if d < 0 then .error .invalidInput else .ok d

example : format_amount "2.005" = some 201 := by decide
example : format_amount "100.00" = some 10000 := by decide
example : format_amount " 1e2 " = some 10000 := by decide
example : format_amount "-10" = some (-1000) := by decide
example : format_amount "abc" = none := by decide
example : format_amount "" = none := by decide
example : format_amount "1.5" = some 150 := by decide
example : format_amount "2.675" = some 268 := by decide
example : format_amount "-0.005" = some (-1) := by decide
example : validate_non_negative_amount "abc" = .error .invalidOperation := rfl
example : validate_non_negative_amount "-10" = .error .invalidInput := rfl
example : validate_non_empty_string "  cash " = .ok "Cash" := rfl
example : validate_non_empty_string "CASH" = .ok "Cash" := rfl
example : validate_transaction_type " InCome " = .ok .income := rfl

/-! ### Data model (`app/models.py`) -/

/-- `Account` from `app/models.py`. `balance` is in cents; `transactions` is
the back-reference list, holding the object identities (`oid`s) of the owned
`Transaction` objects. -/
structure Account where
  account_name : String
  balance : Int
  transactions : List Nat
deriving Repr, DecidableEq

namespace Account

/-- `Account.update_balance`: add for income, subtract for expense. -/
def update_balance (a : Account) (amount : Int) (t : TransactionType) : Account :=
  match t with
  | .income => { a with balance := a.balance + amount }
  | .expense => { a with balance := a.balance - amount }

/-- `Account.reverse_balance`: subtract for income, add for expense. -/
def reverse_balance (a : Account) (amount : Int) (t : TransactionType) : Account :=
  match t with
  | .income => { a with balance := a.balance - amount }
  | .expense => { a with balance := a.balance + amount }

/-- `Account.add_transaction`: append to the back-reference list. -/
def add_transaction (a : Account) (oid : Nat) : Account :=
  { a with transactions := a.transactions ++ [oid] }

/-- `Account.remove_transaction`: `list.remove` drops the first occurrence. -/
def remove_transaction (a : Account) (oid : Nat) : Account :=
  { a with transactions := a.transactions.erase oid }

end Account

/-- `Transaction` from `app/models.py`. `oid` is the Python object identity
(used to model reference sharing between lists); `account` holds the name of
the referenced account (a unique key of the live accounts dict); `amount` is
in cents; `date_time` is an opaque timestamp. -/
structure Transaction where
  oid : Nat
  transaction_id : Nat
  date_time : Nat
  transaction_type : TransactionType
  category : String
  account : String
  amount : Int
  description : String
deriving Repr, DecidableEq

/-- The shared store (`MoneyManager` plus the lists cached by its services).
`heap` holds every live `Transaction` object keyed by `oid`; `tsList` is the
contents (as `oid`s) of the list object both `TransactionService.transactions`
and `FilterService.transactions` point at; `mmList = none` means
`MoneyManager.transactions` still aliases that same list object, while
`some l` means `AccountService.delete_account` has rebound the manager's
attribute to a fresh list with contents `l`. `nextOid` is a fresh object
identity. The category lists are cached by reference and only ever mutated in
place, so a single copy of each is faithful. -/
structure State where
  accounts : List Account
  heap : List Transaction
  tsList : List Nat
  mmList : Option (List Nat)
  nextOid : Nat
  income_categories : List String
  expense_categories : List String
deriving Repr, DecidableEq

/-- Resolve an object identity against the heap. -/
def heapFind (s : State) (oid : Nat) : Option Transaction :=
  s.heap.find? (fun t => t.oid == oid)

/-- Resolve a list of object identities to transaction objects. -/
def resolveTxs (s : State) (l : List Nat) : List Transaction :=
  l.filterMap (heapFind s)

/-- Contents of the list object `TransactionService.transactions` (and
`FilterService.transactions`) point at. -/
def tsTxs (s : State) : List Transaction :=
  resolveTxs s s.tsList

/-- Object identities currently in `MoneyManager.transactions`. -/
def mmOids (s : State) : List Nat :=
  s.mmList.getD s.tsList

/-- Contents of `MoneyManager.transactions`. -/
def mmTxs (s : State) : List Transaction :=
  resolveTxs s (mmOids s)

/-- The `transactions` field written by `MoneyManager._save_data`, which
serializes `self.transactions` — the manager's own list. -/
def saved_transactions (s : State) : List Transaction :=
  mmTxs s

/-- Dict lookup `self.accounts.get(name)` / `name in self.accounts`. -/
def findAccount (s : State) (name : String) : Option Account :=
  s.accounts.find? (fun a => a.account_name == name)

/-- In-place mutation of the (unique) account stored under `name`. -/
def setAccount (s : State) (name : String) (f : Account → Account) : State :=
  { s with accounts := s.accounts.map (fun a => if a.account_name == name then f a else a) }

/-! ### `CategoryService` (`app/services/category_service.py`) -/

/-- `CategoryService.get_categories`. -/
def get_categories (s : State) : TransactionType → List String
  | .income => s.income_categories
  | .expense => s.expense_categories

/-- Replace one of the two category lists (they are mutated in place). -/
def set_categories (s : State) (t : TransactionType) (l : List String) : State :=
  match t with
  | .income => { s with income_categories := l }
  | .expense => { s with expense_categories := l }

/-- `CategoryService.is_valid_category`: pure membership test. -/
def is_valid_category (s : State) (category : String) (t : TransactionType) : Bool :=
  (get_categories s t).contains category

/-- `CategoryService.add_category`. -/
def add_category (category transaction_type_input : String) (s : State) :
    Except Err Unit × State :=
  match validate_transaction_type transaction_type_input with
  | .error e => (.error e, s)
  | .ok t =>
  match validate_non_empty_string category with
  | .error e => (.error e, s)
  | .ok c =>
  if (get_categories s t).contains c then (.error .alreadyExists, s)
  else (.ok (), set_categories s t (get_categories s t ++ [c]))

/-- `category_list[category_list.index(old)] = new`: replace the first
occurrence in place. -/
def replaceFirst : List String → String → String → List String
  | [], _, _ => []
  | x :: xs, old, new => if x = old then new :: xs else x :: replaceFirst xs old new

/-- `CategoryService.edit_category`: validate, replace the entry in place,
then rename the category of every matching transaction in
`self.money_manager.transactions` (the manager's list). -/
def edit_category (old_category new_category transaction_type_input : String)
    (s : State) : Except Err Unit × State :=
  match validate_transaction_type transaction_type_input with
  | .error e => (.error e, s)
  | .ok t =>
  match validate_non_empty_string old_category with
  | .error e => (.error e, s)
  | .ok oldc =>
  match validate_non_empty_string new_category with
  | .error e => (.error e, s)
  | .ok newc =>
  let category_list := get_categories s t
  if ¬ category_list.contains oldc then (.error .notFound, s)
  else if category_list.contains newc ∧ newc ≠ oldc then (.error .alreadyExists, s)
  else
    let s1 := set_categories s t (replaceFirst category_list oldc newc)
    let s2 := { s1 with heap := s1.heap.map (fun tx =>
      if (mmOids s).contains tx.oid ∧ tx.category = oldc ∧ tx.transaction_type = t
      then { tx with category := newc } else tx) }
    (.ok (), s2)

/-- `CategoryService.delete_category`: refuse when any transaction in
`self.money_manager.transactions` still references `(category, type)`. -/
def delete_category (category transaction_type_input : String) (s : State) :
    Except Err Bool × State :=
  match validate_transaction_type transaction_type_input with
  | .error e => (.error e, s)
  | .ok t =>
  match validate_non_empty_string category with
  | .error e => (.error e, s)
  | .ok c =>
  let category_list := get_categories s t
  if ¬ category_list.contains c then (.error .notFound, s)
  else
    let used_by := (mmTxs s).filter (fun tx => tx.category == c && tx.transaction_type == t)
    if used_by ≠ [] then (.error .categoryInUse, s)
    else (.ok true, set_categories s t (category_list.erase c))

/-! ### `AccountService` (`app/services/account_service.py`) -/

/-- `AccountService.get_account`: validates the name, then a plain dict
lookup that never raises for absence. -/
def get_account (account_name : String) (s : State) : Except Err (Option Account) :=
  match validate_non_empty_string account_name with
  | .error e => .error e
  | .ok n => .ok (findAccount s n)

/-- `AccountService.add_account`. `Account.__init__` re-runs `format_amount`
on the same balance string, producing the value already computed by
`validate_non_negative_amount`. -/
def add_account (account_name initial_balance : String) (s : State) :
    Except Err Account × State :=
  match validate_non_empty_string account_name with
  | .error e => (.error e, s)
  | .ok n =>
  if (findAccount s n).isSome then (.error .alreadyExists, s)
  else match validate_non_negative_amount initial_balance with
  | .error e => (.error e, s)
  | .ok bal =>
    let new_account : Account := { account_name := n, balance := bal, transactions := [] }
    (.ok new_account, { s with accounts := s.accounts ++ [new_account] })

/-- `AccountService.edit_account_name`: rename in place and re-key the dict
(`del` old key, insert the same object under the new key, at the end of the
dict order). The source updates the shared `Account` object, so transactions
referencing it observe the new name through their object reference; the
name-proxy in `Transaction.account` is not rewritten here, and no claim
exercises a rename followed by a name-based lookup of an old transaction. -/
def edit_account_name (old_name new_name : String) (s : State) :
    Except Err Account × State :=
  match validate_non_empty_string old_name with
  | .error e => (.error e, s)
  | .ok oldn =>
  match validate_non_empty_string new_name with
  | .error e => (.error e, s)
  | .ok newn =>
  match findAccount s oldn with
  | none => (.error .notFound, s)
  | some account =>
  if (findAccount s newn).isSome ∧ newn ≠ oldn then (.error .alreadyExists, s)
  else
    let renamed := { account with account_name := newn }
    (.ok renamed,
      { s with accounts := (s.accounts.eraseP (fun a => a.account_name == oldn)) ++ [renamed] })

/-- `AccountService.delete_account`: validate; `NotFound` when absent; rebind
`self.money_manager.transactions` to a fresh list holding the transactions of
other accounts (the service-cached list object is left untouched); delete the
dict entry. -/
def delete_account (account_name : String) (s : State) : Except Err Bool × State :=
  match validate_non_empty_string account_name with
  | .error e => (.error e, s)
  | .ok n =>
  match findAccount s n with
  | none => (.error .notFound, s)
  | some _ =>
    let newMM := (mmOids s).filter (fun oid =>
      match heapFind s oid with
      | some tx => tx.account ≠ n
      | none => false)
    (.ok true,
      { s with mmList := some newMM,
               accounts := s.accounts.eraseP (fun a => a.account_name == n) })

/-! ### `TransactionService` (`app/services/transaction_service.py`) -/

/-- `TransactionService.next_transaction_id`: `max(ids) + 1` over the
service's list, or `1` when it is empty. -/
def next_transaction_id (s : State) : Nat :=
  if (tsTxs s).isEmpty then 1
  else ((tsTxs s).map Transaction.transaction_id).foldl Nat.max 0 + 1

/-- `TransactionService.get_transaction`: first transaction in the service's
list with the given id, or `None`. -/
def get_transaction (s : State) (transaction_id : Nat) : Option Transaction :=
  (tsTxs s).find? (fun t => t.transaction_id == transaction_id)

/-- `TransactionService.add_transaction`: the four validation steps in source
order, then construct the transaction, update the account balance, append to
the service's list object and to the account's back-reference list. -/
def add_transaction (transaction_type_input category account_name amount description : String)
    (now : Nat) (s : State) : Except Err Transaction × State :=
  match validate_transaction_type transaction_type_input with
  | .error e => (.error e, s)
  | .ok transaction_type =>
  match validate_non_empty_string category with
  | .error e => (.error e, s)
  | .ok cat =>
  if is_valid_category s cat transaction_type = false then (.error .notFound, s)
  else match validate_non_empty_string account_name with
  | .error e => (.error e, s)
  | .ok acct_name =>
  match findAccount s acct_name with
  | none => (.error .notFound, s)
  | some _ =>
  match validate_non_negative_amount amount with
  | .error e => (.error e, s)
  | .ok amt =>
    let transaction : Transaction :=
      { oid := s.nextOid
        transaction_id := next_transaction_id s
        date_time := now
        transaction_type := transaction_type
        category := cat
        account := acct_name
        amount := amt
        description := description }
    let s1 := setAccount s acct_name (fun a => a.update_balance amt transaction_type)
    let s2 := { s1 with heap := s1.heap ++ [transaction],
                        tsList := s1.tsList ++ [transaction.oid],
                        nextOid := s1.nextOid + 1 }
    let s3 := setAccount s2 acct_name (fun a => a.add_transaction transaction.oid)
    (.ok transaction, s3)

/-- Resolution of the type input in `edit_transaction`: blank keeps the
current value, otherwise validate. -/
def resolve_type (input : String) (old : TransactionType) : Except Err TransactionType :=
  if pyStrip input = "" then .ok old else validate_transaction_type input

/-- Resolution of the category input in `edit_transaction`: blank keeps the
current value, otherwise `input.strip().capitalize()` validated against the
(potentially new) transaction type. -/
def resolve_category (s : State) (input oldCat : String) (newType : TransactionType) :
    Except Err String :=
  if pyStrip input = "" then .ok oldCat
  else
    let nc := pyCapitalize (pyStrip input)
    if is_valid_category s nc newType then .ok nc else .error .notFound

/-- Resolution of the account input in `edit_transaction`: blank keeps the
current account, otherwise validate the name and require existence. -/
def resolve_account (s : State) (input oldName : String) : Except Err String :=
  if pyStrip input = "" then .ok oldName
  else match validate_non_empty_string input with
  | .error e => .error e
  | .ok n => if (findAccount s n).isSome then .ok n else .error .notFound

/-- Resolution of the amount input in `edit_transaction`: blank keeps the
current amount, otherwise validate non-negative. -/
def resolve_amount (input : String) (old : Int) : Except Err Int :=
  if pyStrip input = "" then .ok old else validate_non_negative_amount input

/-- `TransactionService.edit_transaction`: look up by id; resolve each field
(blank input keeps the current value); reverse the old amount/type on the old
account; detach from the old account's list when the account changes; mutate
the transaction object in place (visible through every list referencing it);
attach to the new account's list when the account changes; apply the new
amount/type on the new account. The description is always replaced by its
stripped value. -/
def edit_transaction (transaction_id : Nat)
    (transaction_type_input category account_name amount description : String)
    (s : State) : Except Err Transaction × State :=
  match get_transaction s transaction_id with
  | none => (.error .notFound, s)
  | some transaction =>
    let old_account := transaction.account
    let old_amount := transaction.amount
    let old_transaction_type := transaction.transaction_type
    match resolve_type transaction_type_input old_transaction_type with
    | .error e => (.error e, s)
    | .ok new_transaction_type =>
    match resolve_category s category transaction.category new_transaction_type with
    | .error e => (.error e, s)
    | .ok new_category =>
    match resolve_account s account_name old_account with
    | .error e => (.error e, s)
    | .ok new_account_name =>
    match resolve_amount amount old_amount with
    | .error e => (.error e, s)
    | .ok new_amount =>
      let updated : Transaction :=
        { transaction with
            transaction_type := new_transaction_type
            category := new_category
            account := new_account_name
            amount := new_amount
            description := pyStrip description }
      let s1 := setAccount s old_account (fun a => a.reverse_balance old_amount old_transaction_type)
      let s2 := if old_account ≠ new_account_name
                then setAccount s1 old_account (fun a => a.remove_transaction transaction.oid)
                else s1
      let s3 := { s2 with heap := s2.heap.map (fun t => if t.oid == transaction.oid then updated else t) }
      let s4 := if old_account ≠ new_account_name
                then setAccount s3 new_account_name (fun a => a.add_transaction transaction.oid)
                else s3
      let s5 := setAccount s4 new_account_name (fun a => a.update_balance new_amount new_transaction_type)
      (.ok updated, s5)

/-- `TransactionService.delete_transaction`: look up by id, reverse the
balance impact, remove from the account's back-reference list and from the
service's list object (the manager's list is not touched when it has been
rebound). -/
def delete_transaction (transaction_id : Nat) (s : State) : Except Err Bool × State :=
  match get_transaction s transaction_id with
  | none => (.error .notFound, s)
  | some transaction =>
    let s1 := setAccount s transaction.account
      (fun a => a.reverse_balance transaction.amount transaction.transaction_type)
    let s2 := setAccount s1 transaction.account (fun a => a.remove_transaction transaction.oid)
    (.ok true, { s2 with tsList := s2.tsList.erase transaction.oid })

/-! ### `FilterService` (`app/services/filter_service.py`) -/

/-- `FilterService.filter_transaction_by_transaction_type`: validate the type
token, then keep the transactions of the service's list whose category is a
member of that type's category list (a category-set membership test, not a
comparison with the stored type tag). -/
def filter_transaction_by_transaction_type (transaction_type_input : String)
    (s : State) : Except Err (List Transaction) :=
  match validate_transaction_type transaction_type_input with
  | .error e => .error e
  | .ok t => .ok ((tsTxs s).filter (fun tx => (get_categories s t).contains tx.category))

/-! ### Operation language and store invariants -/

/-- One invocation of a core mutating operation. -/
inductive Op where
  | addTx (typeIn cat acct amt desc : String) (now : Nat)
  | editTx (tid : Nat) (typeIn cat acct amt desc : String)
  | delTx (tid : Nat)
  | addAccount (name bal : String)
  | editAccountName (old new : String)
  | delAccount (name : String)
  | addCat (cat typeIn : String)
  | editCat (old new typeIn : String)
  | delCat (cat typeIn : String)

/-- The state after invoking an operation (failed operations leave whatever
state the raise point had reached; in this code every raise precedes every
mutation). -/
def applyOp (op : Op) (s : State) : State :=
  match op with
  | .addTx a b c d e now => (add_transaction a b c d e now s).2
  | .editTx tid a b c d e => (edit_transaction tid a b c d e s).2
  | .delTx tid => (delete_transaction tid s).2
  | .addAccount n b => (add_account n b s).2
  | .editAccountName o n => (edit_account_name o n s).2
  | .delAccount n => (delete_account n s).2
  | .addCat c t => (add_category c t s).2
  | .editCat o n t => (edit_category o n t s).2
  | .delCat c t => (delete_category c t s).2

/-- The state after a sequence of operations. -/
def applyOps (ops : List Op) (s : State) : State :=
  ops.foldl (fun st op => applyOp op st) s

/-- Signed contribution of a transaction to its account's balance. -/
def signedAmt (t : Transaction) : Int :=
  match t.transaction_type with
  | .income => t.amount
  | .expense => -t.amount

/-- Sum of income amounts minus sum of expense amounts over a transaction list. -/
def signedSum (l : List Transaction) : Int :=
  (l.map signedAmt).sum

/-- The account's current transaction set: the transactions of the
authoritative global list that reference the account. -/
def txsOf (s : State) (name : String) : List Transaction :=
  (tsTxs s).filter (fun t => t.account == name)

/-- Balance of the account stored under `name` (0 when absent). -/
def balanceOf (s : State) (name : String) : Int :=
  match findAccount s name with
  | some a => a.balance
  | none => 0

/-- Balance minus the signed sum over the account's transaction set; for an
account created with `add_account` this equals its initial balance. -/
def acctNet (s : State) (name : String) : Int :=
  balanceOf s name - signedSum (txsOf s name)

/-- Well-formedness of a store as produced by loading and by the operations
themselves (before any `delete_account` has desynchronized the manager's
transaction list from the service-cached one). -/
structure Consistent (s : State) : Prop where
  mm_aliased : s.mmList = none
  ts_nodup : s.tsList.Nodup
  ts_resolves : ∀ oid ∈ s.tsList, (heapFind s oid).isSome = true
  heap_oids_nodup : (s.heap.map Transaction.oid).Nodup
  ids_nodup : ((tsTxs s).map Transaction.transaction_id).Nodup
  names_nodup : (s.accounts.map Account.account_name).Nodup
  oid_bound : ∀ t ∈ s.heap, t.oid < s.nextOid

/-- The category invariant: every transaction's category belongs to the
category list of the transaction's own type. -/
def CatInv (s : State) : Prop :=
  ∀ tx ∈ tsTxs s, tx.category ∈ get_categories s tx.transaction_type

/-- Default income categories seeded by `MoneyManager.__init__`. -/
def defaultIncomeCategories : List String :=
  ["Salary", "Business", "Investment", "Gift", "Other Income"]

/-- Default expense categories seeded by `MoneyManager.__init__`. -/
def defaultExpenseCategories : List String :=
  ["Food", "Transport", "Entertainment", "Bills", "Shopping", "Healthcare", "Other Expense"]

/-- A small concrete store: one account with one income transaction. -/
def sampleState : State :=
  { accounts := [{ account_name := "Checking", balance := 10000, transactions := [1] }]
    heap := [{ oid := 1, transaction_id := 1, date_time := 0, transaction_type := .income,
               category := "Salary", account := "Checking", amount := 5000, description := "pay" }]
    tsList := [1]
    mmList := none
    nextOid := 2
    income_categories := defaultIncomeCategories
    expense_categories := defaultExpenseCategories }

example : (delete_account "Checking" sampleState).1 = .ok true := rfl
example : mmTxs (delete_account "Checking" sampleState).2 = [] := by decide
example : (get_transaction (delete_account "Checking" sampleState).2 1).isSome = true := by decide
example : Consistent sampleState := by
  constructor <;> decide
example : CatInv sampleState := by unfold CatInv; decide

/-! ### Character-level lemmas for the normalization functions -/

theorem toNat_ofNat_valid {n : Nat} (h : n < 55296) : (Char.ofNat n).toNat = n := by
  have hv : n.isValidChar := Or.inl h
  rw [Char.ofNat, dif_pos hv]
  simp [Char.ofNatAux, Char.toNat, UInt32.ofNat', UInt32.toNat]

theorem char_eq_iff_toNat {a b : Char} : a = b ↔ a.toNat = b.toNat := by
  constructor
  · rintro rfl; rfl
  · intro h
    apply Char.ext
    apply UInt32.eq_of_toBitVec_eq
    have h1 : a.val.toNat = b.val.toNat := h
    exact BitVec.eq_of_toNat_eq h1

theorem isWhitespace_iff (c : Char) :
    c.isWhitespace = true ↔ (c.toNat = 32 ∨ c.toNat = 9 ∨ c.toNat = 13 ∨ c.toNat = 10) := by
  simp only [Char.isWhitespace, Bool.or_eq_true, decide_eq_true_eq, char_eq_iff_toNat]
  norm_num [show ((' ' : Char).toNat) = 32 from rfl, show (('\t' : Char).toNat) = 9 from rfl,
    show (('\r' : Char).toNat) = 13 from rfl, show (('\n' : Char).toNat) = 10 from rfl]
  tauto

theorem isWhitespace_toUpper (c : Char) : (Char.toUpper c).isWhitespace = c.isWhitespace := by
  rw [Bool.eq_iff_iff, isWhitespace_iff, isWhitespace_iff]
  unfold Char.toUpper
  simp only []
  split
  · rename_i h
    have hb : c.toNat ≥ 97 ∧ c.toNat ≤ 122 := h
    have h65 : (Char.ofNat (c.toNat - 32)).toNat = c.toNat - 32 := toNat_ofNat_valid (by omega)
    rw [h65]
    omega
  · exact Iff.rfl

theorem isWhitespace_toLower (c : Char) : (Char.toLower c).isWhitespace = c.isWhitespace := by
  rw [Bool.eq_iff_iff, isWhitespace_iff, isWhitespace_iff]
  unfold Char.toLower
  simp only []
  split
  · rename_i h
    have hb : c.toNat ≥ 65 ∧ c.toNat ≤ 90 := h
    have h65 : (Char.ofNat (c.toNat + 32)).toNat = c.toNat + 32 := toNat_ofNat_valid (by omega)
    rw [h65]
    omega
  · exact Iff.rfl

theorem toUpper_toUpper (c : Char) : Char.toUpper (Char.toUpper c) = Char.toUpper c := by
  unfold Char.toUpper
  simp only []
  split
  · rename_i h
    have hb : c.toNat ≥ 97 ∧ c.toNat ≤ 122 := h
    have h65 : (Char.ofNat (c.toNat - 32)).toNat = c.toNat - 32 := toNat_ofNat_valid (by omega)
    rw [if_neg]
    rw [h65]
    omega
  · rfl

theorem toLower_toLower (c : Char) : Char.toLower (Char.toLower c) = Char.toLower c := by
  unfold Char.toLower
  simp only []
  split
  · rename_i h
    have hb : c.toNat ≥ 65 ∧ c.toNat ≤ 90 := h
    have h65 : (Char.ofNat (c.toNat + 32)).toNat = c.toNat + 32 := toNat_ofNat_valid (by omega)
    rw [if_neg]
    rw [h65]
    omega
  · rfl

/-! ### List-level lemmas for `pyStrip` and `pyCapitalize` -/

theorem dropWhile_head_not (p : Char → Bool) (l : List Char) :
    ∀ c ∈ (l.dropWhile p).head?, p c = false := by
  induction l with
  | nil => intro c hc; simp at hc
  | cons a as ih =>
    intro c hc
    by_cases h : p a
    · rw [List.dropWhile_cons_of_pos h] at hc
      exact ih c hc
    · rw [List.dropWhile_cons_of_neg h] at hc
      simp at hc
      subst hc
      simpa using h

theorem dropWhile_eq_self_of_head (p : Char → Bool) (l : List Char)
    (h : ∀ c ∈ l.head?, p c = false) : l.dropWhile p = l := by
  cases l with
  | nil => rfl
  | cons a as =>
    have := h a (by simp)
    simp [List.dropWhile_cons, this]

theorem getLast?_dropWhile_ne_nil (p : Char → Bool) (l : List Char)
    (h : l.dropWhile p ≠ []) : (l.dropWhile p).getLast? = l.getLast? := by
  induction l with
  | nil => simp at h
  | cons a as ih =>
    by_cases hp : p a
    · rw [List.dropWhile_cons_of_pos hp] at h ⊢
      rw [ih h]
      cases as with
      | nil => simp at h
      | cons b bs => rw [List.getLast?_cons_cons]
    · rw [List.dropWhile_cons_of_neg hp]

theorem pyStripList_eq_self (y : List Char)
    (h1 : ∀ c ∈ y.head?, c.isWhitespace = false)
    (h2 : ∀ c ∈ y.getLast?, c.isWhitespace = false) : pyStripList y = y := by
  unfold pyStripList
  rw [dropWhile_eq_self_of_head Char.isWhitespace y h1]
  rw [dropWhile_eq_self_of_head Char.isWhitespace y.reverse
    (by simpa [List.head?_reverse] using h2)]
  exact List.reverse_reverse y

theorem pyStripList_head_not_ws (l : List Char) :
    ∀ c ∈ (pyStripList l).head?, c.isWhitespace = false := by
  intro c hc
  unfold pyStripList at hc
  rw [List.head?_reverse] at hc
  by_cases h : (l.dropWhile Char.isWhitespace).reverse.dropWhile Char.isWhitespace = []
  · rw [h] at hc; simp at hc
  · rw [getLast?_dropWhile_ne_nil Char.isWhitespace _ h, List.getLast?_reverse] at hc
    exact dropWhile_head_not Char.isWhitespace l c hc

theorem pyStripList_last_not_ws (l : List Char) :
    ∀ c ∈ (pyStripList l).getLast?, c.isWhitespace = false := by
  intro c hc
  unfold pyStripList at hc
  rw [List.getLast?_reverse] at hc
  exact dropWhile_head_not Char.isWhitespace _ c hc

theorem pyCapitalizeList_head_not_ws (l : List Char)
    (h : ∀ c ∈ l.head?, c.isWhitespace = false) :
    ∀ c ∈ (pyCapitalizeList l).head?, c.isWhitespace = false := by
  cases l with
  | nil => intro c hc; simp [pyCapitalizeList] at hc
  | cons a as =>
    intro c hc
    simp [pyCapitalizeList] at hc
    subst hc
    rw [isWhitespace_toUpper]
    exact h a (by simp)

theorem pyCapitalizeList_last_not_ws (l : List Char)
    (h : ∀ c ∈ l.getLast?, c.isWhitespace = false) :
    ∀ c ∈ (pyCapitalizeList l).getLast?, c.isWhitespace = false := by
  cases l with
  | nil => intro c hc; simp [pyCapitalizeList] at hc
  | cons a as =>
    cases as with
    | nil =>
      intro c hc
      simp [pyCapitalizeList] at hc
      subst hc
      rw [isWhitespace_toUpper]
      exact h a (by simp [List.getLast?_cons])
    | cons b bs =>
      intro c hc
      have hx : pyCapitalizeList (a :: b :: bs)
          = Char.toUpper a :: Char.toLower b :: List.map Char.toLower bs := rfl
      rw [hx, List.getLast?_cons_cons] at hc
      have hy : (Char.toLower b :: List.map Char.toLower bs)
          = List.map Char.toLower (b :: bs) := rfl
      rw [hy, List.getLast?_map] at hc
      simp at hc
      obtain ⟨d, hd, rfl⟩ := hc
      rw [isWhitespace_toLower]
      apply h
      simp [List.getLast?_cons_cons, hd]

theorem pyCapitalizeList_idem (l : List Char) :
    pyCapitalizeList (pyCapitalizeList l) = pyCapitalizeList l := by
  cases l with
  | nil => rfl
  | cons a as =>
    simp only [pyCapitalizeList, List.map_map]
    rw [toUpper_toUpper]
    congr 1
    apply List.map_congr_left
    intro x _
    exact toLower_toLower x

theorem toList_asString (l : List Char) : (List.asString l).toList = l := rfl

theorem asString_toList (s : String) : s.toList.asString = s := rfl

/-! ### Claim theorems -/

/-- C10: for every input string on which `normalize_name`
(`validate_non_empty_string`) succeeds, applying it again to the result is a
fixed point, and `"  cash "`, `"CASH"`, `"cAsH"` all normalize to the
identical canonical form `"Cash"`. -/
theorem normalize_name_idempotent_c10 :
    (∀ x y : String, validate_non_empty_string x = .ok y →
      validate_non_empty_string y = .ok y) ∧
    validate_non_empty_string "  cash " = .ok "Cash" ∧
    validate_non_empty_string "CASH" = .ok "Cash" ∧
    validate_non_empty_string "cAsH" = .ok "Cash" := by
  refine ⟨?_, rfl, rfl, rfl⟩
  intro x y h
  simp only [validate_non_empty_string] at h ⊢
  by_cases hempty : pyCapitalize (pyStrip x) = ""
  · simp [hempty] at h
  · rw [if_neg hempty] at h
    have hy : pyCapitalize (pyStrip x) = y := by
      cases h
      rfl
    have hyl : y.toList = pyCapitalizeList (pyStripList x.toList) := by
      rw [← hy]
      rfl
    have key : pyCapitalize (pyStrip y) = y := by
      calc pyCapitalize (pyStrip y)
          = (pyCapitalizeList (pyStripList y.toList)).asString := rfl
        _ = (pyCapitalizeList (pyStripList (pyCapitalizeList (pyStripList x.toList)))).asString := by
              rw [hyl]
        _ = (pyCapitalizeList (pyCapitalizeList (pyStripList x.toList))).asString := by
              rw [pyStripList_eq_self _
                (pyCapitalizeList_head_not_ws _ (pyStripList_head_not_ws _))
                (pyCapitalizeList_last_not_ws _ (pyStripList_last_not_ws _))]
        _ = (pyCapitalizeList (pyStripList x.toList)).asString := by
              rw [pyCapitalizeList_idem]
        _ = y := by rw [← hyl]; exact asString_toList y
    have hyne : y ≠ "" := by rw [← hy]; exact hempty
    rw [key, if_neg hyne]

/-- Witness for C10: the idempotence applied at the concrete input
`"  cash "`, whose normalization is `"Cash"`. -/
theorem normalize_name_idempotent_c10_witness :
    validate_non_empty_string "Cash" = .ok "Cash" :=
  normalize_name_idempotent_c10.1 "  cash " "Cash" rfl

/-- C5: amount validation. On a negative parseable amount it fails with the
`InvalidInput` kind and on parseable non-negative input it returns the amount
rounded half-up to 2 decimal places, but on an unparseable string it raises
`decimal.InvalidOperation` (uncaught, outside the error taxonomy) rather than
`InvalidInput` — in `validate_non_negative_amount` itself and hence in every
operation accepting an amount (`add_account`, `add_transaction`,
`edit_transaction`). -/
theorem amount_validation_c5 :
    validate_non_negative_amount "abc" = .error .invalidOperation ∧
    Err.invalidOperation ≠ Err.invalidInput ∧
    validate_non_negative_amount "-5" = .error .invalidInput ∧
    validate_non_negative_amount "2.005" = .ok 201 ∧
    validate_non_negative_amount "0" = .ok 0 ∧
    (add_transaction "income" "Salary" "Checking" "abc" "d" 0 sampleState).1
      = .error .invalidOperation ∧
    (add_account "Wallet" "abc" sampleState).1 = .error .invalidOperation ∧
    (edit_transaction 1 "" "" "" "abc" "" sampleState).1 = .error .invalidOperation :=
  ⟨rfl, by decide, rfl, rfl, rfl, rfl, rfl, rfl⟩

/-- C2: deleting an account removes its transactions from the manager's
global list (so they are gone from the data written by `save`), but
`TransactionService.get_transaction` still reads the service's cached list
object, which `delete_account` leaves untouched, so looking the transaction
up by id afterwards still finds it instead of returning absent. -/
theorem delete_account_cascade_c2 :
    (delete_account "Checking" sampleState).1 = .ok true ∧
    mmTxs (delete_account "Checking" sampleState).2 = [] ∧
    saved_transactions (delete_account "Checking" sampleState).2 = [] ∧
    get_transaction (delete_account "Checking" sampleState).2 1 ≠ none ∧
    tsTxs (delete_account "Checking" sampleState).2 = tsTxs sampleState := by
  refine ⟨rfl, rfl, rfl, ?_, rfl⟩
  decide

theorem validate_transaction_type_eq (input : String) :
    validate_transaction_type input =
      (if pyLower (pyStrip input) = "income" then .ok .income
       else if pyLower (pyStrip input) = "expense" then .ok .expense
       else .error .invalidInput) := rfl

theorem validate_non_empty_string_eq (v : String) :
    validate_non_empty_string v =
      (if pyCapitalize (pyStrip v) = "" then .error .invalidInput
       else .ok (pyCapitalize (pyStrip v))) := rfl

theorem firstErrorLeaf {α : Type} (s : State) (e1 : Err) :
    (∀ e, (some e1 : Option Err) = some e →
      ((Except.error e1, s) : Except Err α × State) = (.error e, s)) ∧
    ((some e1 : Option Err) = none →
      ∃ tx s2, ((Except.error e1, s) : Except Err α × State) = (.ok tx, s2)) :=
  ⟨fun _ he => congrArg (fun z => ((Except.error z, s) : Except Err α × State))
      (Option.some.inj he),
    fun hn => nomatch hn⟩

/-- Modelled from the spec (§4.5 validation order): the error of the earliest
violated validation step of `add_transaction`, following the documented order
(1) parse type, (2) normalize category then check membership in that type's
category list, (3) normalize account name then look it up, (4) validate the
amount; `none` when every step passes. -/
def addTransactionFirstError (typeIn cat acct amt : String) (s : State) : Option Err :=
  match validate_transaction_type typeIn with
  | .error e => some e
  | .ok t =>
  match validate_non_empty_string cat with
  | .error e => some e
  | .ok c =>
  if is_valid_category s c t = false then some .notFound
  else match validate_non_empty_string acct with
  | .error e => some e
  | .ok n =>
  match findAccount s n with
  | none => some .notFound
  | some _ =>
  match validate_non_negative_amount amt with
  | .error e => some e
  | .ok _ => none

/-- C4: `add_transaction` validates in the fixed order type, category,
account, amount: whenever any step fails, the operation returns exactly the
error of the earliest violated step and leaves the store untouched; when all
steps pass it succeeds. -/
theorem add_transaction_validation_c4 (typeIn cat acct amt desc : String)
    (now : Nat) (s : State) :
    (∀ e, addTransactionFirstError typeIn cat acct amt s = some e →
      add_transaction typeIn cat acct amt desc now s = (.error e, s)) ∧
    (addTransactionFirstError typeIn cat acct amt s = none →
      ∃ tx s2, add_transaction typeIn cat acct amt desc now s = (.ok tx, s2)) := by
  unfold add_transaction addTransactionFirstError
  cases validate_transaction_type typeIn with
  | error e1 => exact firstErrorLeaf s e1
  | ok t =>
  dsimp only
  cases validate_non_empty_string cat with
  | error e1 => exact firstErrorLeaf s e1
  | ok c =>
  dsimp only
  by_cases hv : is_valid_category s c t = false
  · rw [if_pos hv, if_pos hv]
    exact firstErrorLeaf s .notFound
  · rw [if_neg hv, if_neg hv]
    cases validate_non_empty_string acct with
    | error e1 => exact firstErrorLeaf s e1
    | ok n =>
    dsimp only
    cases findAccount s n with
    | none => exact firstErrorLeaf s .notFound
    | some a =>
    dsimp only
    cases validate_non_negative_amount amt with
    | error e1 => exact firstErrorLeaf s e1
    | ok amtv => exact ⟨fun _ he => (nomatch he), fun _ => ⟨_, _, rfl⟩⟩

/-- Witness for C4: with every input simultaneously invalid (bad type token,
unknown category, unknown account, unparseable amount), the earliest step's
error (`InvalidInput` from the type parse) is the one raised, and the store
is returned unmutated. -/
theorem add_transaction_validation_c4_witness :
    add_transaction "bogus" "Nope" "Ghost" "abc" "d" 0 sampleState
      = (.error .invalidInput, sampleState) :=
  (add_transaction_validation_c4 "bogus" "Nope" "Ghost" "abc" "d" 0 sampleState).1
    .invalidInput rfl

/-- C8: `filter_by_type` fails with `InvalidInput` on an invalid type token,
and otherwise returns exactly the transactions of the service's list whose
category is a member of that type's category list — a category-set
membership test that never consults the transaction's stored type field. -/
theorem filter_by_type_c8 (input : String) (s : State) :
    (∀ e, validate_transaction_type input = .error e →
      filter_transaction_by_transaction_type input s = .error .invalidInput) ∧
    (∀ t, validate_transaction_type input = .ok t →
      ∃ l, filter_transaction_by_transaction_type input s = .ok l ∧
        ∀ tx, tx ∈ l ↔ (tx ∈ tsTxs s ∧ tx.category ∈ get_categories s t)) := by
  constructor
  · intro e he
    have heq : e = .invalidInput := by
      rw [validate_transaction_type_eq] at he
      split at he
      · cases he
      · split at he
        · cases he
        · cases he
          rfl
    subst heq
    unfold filter_transaction_by_transaction_type
    rw [he]
  · intro t ht
    unfold filter_transaction_by_transaction_type
    rw [ht]
    refine ⟨_, rfl, ?_⟩
    intro tx
    simp [List.mem_filter, List.contains]

/-- Witness for C8: applying the characterization at the valid token
`"income"` on the sample store. -/
theorem filter_by_type_c8_witness :
    ∃ l, filter_transaction_by_transaction_type "income" sampleState = .ok l ∧
      ∀ tx, tx ∈ l ↔ (tx ∈ tsTxs sampleState ∧
        tx.category ∈ get_categories sampleState .income) :=
  (filter_by_type_c8 "income" sampleState).2 .income rfl

/-! ### State-transition lemmas -/

theorem heapFind_oid {s : State} {oid : Nat} {tx : Transaction}
    (h : heapFind s oid = some tx) : tx.oid = oid := by
  have := List.find?_some h
  simpa using this

theorem heapFind_mem {s : State} {oid : Nat} {tx : Transaction}
    (h : heapFind s oid = some tx) : tx ∈ s.heap :=
  List.mem_of_find?_eq_some h

theorem setAccount_heap (s : State) (n : String) (f : Account → Account) :
    (setAccount s n f).heap = s.heap := rfl

theorem setAccount_tsList (s : State) (n : String) (f : Account → Account) :
    (setAccount s n f).tsList = s.tsList := rfl

theorem setAccount_mmList (s : State) (n : String) (f : Account → Account) :
    (setAccount s n f).mmList = s.mmList := rfl

theorem setAccount_nextOid (s : State) (n : String) (f : Account → Account) :
    (setAccount s n f).nextOid = s.nextOid := rfl

theorem tsTxs_setAccount (s : State) (n : String) (f : Account → Account) :
    tsTxs (setAccount s n f) = tsTxs s := rfl

theorem findAccount_some_name {s : State} {name : String} {a : Account}
    (h : findAccount s name = some a) : a.account_name = name := by
  have := List.find?_some h
  simpa using this

theorem findAccount_setAccount (s : State) (n : String) (f : Account → Account)
    (name : String) (hf : ∀ a, (f a).account_name = a.account_name) :
    findAccount (setAccount s n f) name =
      (findAccount s name).map (fun a => if a.account_name == n then f a else a) := by
  unfold findAccount setAccount
  dsimp only
  rw [List.find?_map]
  have hp : ((fun a => a.account_name == name) ∘
      fun a => if (a.account_name == n) = true then f a else a)
      = (fun a : Account => a.account_name == name) := by
    funext a
    by_cases h : (a.account_name == n) = true
    · simp [Function.comp, h, hf]
    · simp [Function.comp, h]
  rw [hp]

theorem findAccount_setAccount_ne {s : State} {n name : String} {f : Account → Account}
    (hf : ∀ a, (f a).account_name = a.account_name) (hne : name ≠ n) :
    findAccount (setAccount s n f) name = findAccount s name := by
  rw [findAccount_setAccount s n f name hf]
  cases h : findAccount s name with
  | none => rfl
  | some a =>
    have := findAccount_some_name h
    simp [this, hne]

theorem findAccount_setAccount_self {s : State} {n : String} {f : Account → Account}
    (hf : ∀ a, (f a).account_name = a.account_name) :
    findAccount (setAccount s n f) n = (findAccount s n).map f := by
  rw [findAccount_setAccount s n f n hf]
  cases h : findAccount s n with
  | none => rfl
  | some a =>
    have := findAccount_some_name h
    simp [this]

theorem update_balance_name (a : Account) (amt : Int) (t : TransactionType) :
    (a.update_balance amt t).account_name = a.account_name := by
  cases t <;> rfl

theorem reverse_balance_name (a : Account) (amt : Int) (t : TransactionType) :
    (a.reverse_balance amt t).account_name = a.account_name := by
  cases t <;> rfl

theorem add_transaction_oid_name (a : Account) (oid : Nat) :
    (a.add_transaction oid).account_name = a.account_name := rfl

theorem remove_transaction_name (a : Account) (oid : Nat) :
    (a.remove_transaction oid).account_name = a.account_name := rfl

theorem update_balance_balance (a : Account) (amt : Int) (t : TransactionType) :
    (a.update_balance amt t).balance = a.balance +
      (match t with | .income => amt | .expense => -amt) := by
  cases t <;> simp [Account.update_balance, Int.sub_eq_add_neg]

theorem reverse_balance_balance (a : Account) (amt : Int) (t : TransactionType) :
    (a.reverse_balance amt t).balance = a.balance -
      (match t with | .income => amt | .expense => -amt) := by
  cases t <;> simp [Account.reverse_balance, Int.sub_neg]

/-- The transaction object constructed by a successful `add_transaction`. -/
def mkTransaction (s : State) (t : TransactionType) (c an : String) (amtv : Int)
    (now : Nat) (desc : String) : Transaction :=
  { oid := s.nextOid, transaction_id := next_transaction_id s, date_time := now,
    transaction_type := t, category := c, account := an, amount := amtv,
    description := desc }

/-- The store after a successful `add_transaction`. -/
def addedState (s : State) (t : TransactionType) (c an : String) (amtv : Int)
    (now : Nat) (desc : String) : State :=
  setAccount
    { (setAccount s an (fun a => a.update_balance amtv t)) with
        heap := s.heap ++ [mkTransaction s t c an amtv now desc],
        tsList := s.tsList ++ [s.nextOid],
        nextOid := s.nextOid + 1 }
    an (fun a => a.add_transaction s.nextOid)

theorem add_transaction_ok {ti cat acct amt desc : String} {now : Nat} {s : State}
    {t : TransactionType} {c an : String} {a0 : Account} {amtv : Int}
    (h1 : validate_transaction_type ti = .ok t)
    (h2 : validate_non_empty_string cat = .ok c)
    (h3 : is_valid_category s c t = true)
    (h4 : validate_non_empty_string acct = .ok an)
    (h5 : findAccount s an = some a0)
    (h6 : validate_non_negative_amount amt = .ok amtv) :
    add_transaction ti cat acct amt desc now s =
      (.ok (mkTransaction s t c an amtv now desc), addedState s t c an amtv now desc) := by
  unfold add_transaction
  simp only [h1, h2, h3, h4, h5, h6, Bool.true_eq_false, if_false]
  rfl

theorem le_foldl_max (l : List Nat) (init : Nat) :
    init ≤ l.foldl Nat.max init ∧ ∀ x ∈ l, x ≤ l.foldl Nat.max init := by
  induction l generalizing init with
  | nil => exact ⟨Nat.le_refl _, by intro x hx; cases hx⟩
  | cons a as ih =>
    constructor
    · exact Nat.le_trans (Nat.le_max_left init a) (ih (Nat.max init a)).1
    · intro x hx
      cases hx with
      | head => exact Nat.le_trans (Nat.le_max_right init a) (ih (Nat.max init a)).1
      | tail _ h => exact (ih (Nat.max init a)).2 x h

theorem transaction_id_lt_next {s : State} {tx : Transaction} (h : tx ∈ tsTxs s) :
    tx.transaction_id < next_transaction_id s := by
  unfold next_transaction_id
  rw [if_neg]
  · have := (le_foldl_max ((tsTxs s).map Transaction.transaction_id) 0).2
      tx.transaction_id (List.mem_map_of_mem _ h)
    omega
  · intro he
    rw [List.isEmpty_iff] at he
    rw [he] at h
    cases h

theorem tsTxs_oids (s : State) :
    (tsTxs s).map Transaction.oid = s.tsList.filter (fun o => (heapFind s o).isSome) := by
  unfold tsTxs resolveTxs
  induction s.tsList with
  | nil => rfl
  | cons o os ih =>
    rw [List.filterMap_cons, List.filter_cons]
    cases h : heapFind s o with
    | none => simpa [h] using ih
    | some tx =>
      have := heapFind_oid h
      simp only [h, Option.isSome_some, if_pos]
      rw [List.map_cons, ih, this]

theorem tsTxs_oids_nodup {s : State} (hc : Consistent s) :
    ((tsTxs s).map Transaction.oid).Nodup := by
  rw [tsTxs_oids]
  exact hc.ts_nodup.sublist (List.filter_sublist _)

theorem oid_mem_tsList_of_mem_tsTxs {s : State} {tx : Transaction} (h : tx ∈ tsTxs s) :
    tx.oid ∈ s.tsList ∧ heapFind s tx.oid = some tx := by
  unfold tsTxs resolveTxs at h
  rw [List.mem_filterMap] at h
  obtain ⟨o, ho, hfind⟩ := h
  have := heapFind_oid hfind
  subst this
  exact ⟨ho, hfind⟩

theorem mem_decomp_unique {l : List Transaction} {tx : Transaction}
    (hmem : tx ∈ l) (hnd : (l.map Transaction.oid).Nodup) :
    ∃ A B, l = A ++ tx :: B ∧
      (∀ y ∈ A, y.oid ≠ tx.oid) ∧ (∀ y ∈ B, y.oid ≠ tx.oid) := by
  obtain ⟨A, B, rfl⟩ := List.append_of_mem hmem
  refine ⟨A, B, rfl, ?_, ?_⟩
  · intro y hy he
    rw [List.map_append, List.map_cons] at hnd
    have h2 := (List.nodup_append.mp hnd).2.2
    have hmA : tx.oid ∈ List.map Transaction.oid A := by
      rw [← he]
      exact List.mem_map_of_mem _ hy
    exact h2 hmA (by simp)
  · intro y hy
    rw [List.map_append, List.map_cons] at hnd
    have h2 := (List.nodup_append.mp hnd).2.1
    rw [List.nodup_cons] at h2
    intro he
    exact h2.1 (by rw [← he]; exact List.mem_map_of_mem _ hy)

theorem addedState_heap (s : State) (t : TransactionType) (c an : String) (amtv : Int)
    (now : Nat) (desc : String) :
    (addedState s t c an amtv now desc).heap
      = s.heap ++ [mkTransaction s t c an amtv now desc] := rfl

theorem addedState_tsList (s : State) (t : TransactionType) (c an : String) (amtv : Int)
    (now : Nat) (desc : String) :
    (addedState s t c an amtv now desc).tsList = s.tsList ++ [s.nextOid] := rfl

theorem addedState_mmList (s : State) (t : TransactionType) (c an : String) (amtv : Int)
    (now : Nat) (desc : String) :
    (addedState s t c an amtv now desc).mmList = s.mmList := rfl

theorem addedState_nextOid (s : State) (t : TransactionType) (c an : String) (amtv : Int)
    (now : Nat) (desc : String) :
    (addedState s t c an amtv now desc).nextOid = s.nextOid + 1 := rfl

theorem addedState_income (s : State) (t : TransactionType) (c an : String) (amtv : Int)
    (now : Nat) (desc : String) :
    (addedState s t c an amtv now desc).income_categories = s.income_categories := rfl

theorem addedState_expense (s : State) (t : TransactionType) (c an : String) (amtv : Int)
    (now : Nat) (desc : String) :
    (addedState s t c an amtv now desc).expense_categories = s.expense_categories := rfl

theorem heapFind_addedState_old {s : State} {t : TransactionType} {c an : String}
    {amtv : Int} {now : Nat} {desc : String} {oid : Nat} (hlt : oid < s.nextOid) :
    heapFind (addedState s t c an amtv now desc) oid = heapFind s oid := by
  show (s.heap ++ [mkTransaction s t c an amtv now desc]).find? (fun tx => tx.oid == oid)
      = heapFind s oid
  rw [List.find?_append]
  cases h : s.heap.find? (fun tx => tx.oid == oid) with
  | some tx =>
    rw [Option.or_some]
    exact h.symm
  | none =>
    have : (mkTransaction s t c an amtv now desc).oid = s.nextOid := rfl
    simp only [Option.or, heapFind, h, List.find?]
    have hne : (s.nextOid == oid) = false := by
      simp
      omega
    rw [show (mkTransaction s t c an amtv now desc).oid = s.nextOid from rfl, hne]

theorem heapFind_addedState_new {s : State} {t : TransactionType} {c an : String}
    {amtv : Int} {now : Nat} {desc : String}
    (hb : ∀ x ∈ s.heap, x.oid < s.nextOid) :
    heapFind (addedState s t c an amtv now desc) s.nextOid
      = some (mkTransaction s t c an amtv now desc) := by
  show (s.heap ++ [mkTransaction s t c an amtv now desc]).find? (fun tx => tx.oid == s.nextOid)
      = some (mkTransaction s t c an amtv now desc)
  rw [List.find?_append]
  have h1 : s.heap.find? (fun tx => tx.oid == s.nextOid) = none := by
    rw [List.find?_eq_none]
    intro x hx
    have := hb x hx
    simp
    omega
  rw [h1]
  simp only [Option.or, List.find?]
  rw [show (mkTransaction s t c an amtv now desc).oid = s.nextOid from rfl]
  simp

theorem tsTxs_addedState {s : State} {t : TransactionType} {c an : String}
    {amtv : Int} {now : Nat} {desc : String}
    (hres : ∀ oid ∈ s.tsList, (heapFind s oid).isSome = true)
    (hb : ∀ x ∈ s.heap, x.oid < s.nextOid) :
    tsTxs (addedState s t c an amtv now desc)
      = tsTxs s ++ [mkTransaction s t c an amtv now desc] := by
  show (s.tsList ++ [s.nextOid]).filterMap (heapFind (addedState s t c an amtv now desc))
      = tsTxs s ++ [mkTransaction s t c an amtv now desc]
  rw [List.filterMap_append]
  congr 1
  · apply List.filterMap_congr
    intro oid ho
    have hs := hres oid ho
    rw [Option.isSome_iff_exists] at hs
    obtain ⟨tx, htx⟩ := hs
    have h1 : oid < s.nextOid := by
      have := hb tx (heapFind_mem htx)
      rw [heapFind_oid htx] at this
      exact this
    exact heapFind_addedState_old h1
  · rw [List.filterMap_cons, heapFind_addedState_new hb]
    rfl

theorem setAccount_names (s : State) (n : String) (f : Account → Account)
    (hf : ∀ a, (f a).account_name = a.account_name) :
    (setAccount s n f).accounts.map Account.account_name
      = s.accounts.map Account.account_name := by
  unfold setAccount
  dsimp only
  rw [List.map_map]
  apply List.map_congr_left
  intro a _
  by_cases h : (a.account_name == n) = true
  · simp [Function.comp, h, hf]
  · simp [Function.comp, h]

theorem addedState_names (s : State) (t : TransactionType) (c an : String) (amtv : Int)
    (now : Nat) (desc : String) :
    (addedState s t c an amtv now desc).accounts.map Account.account_name
      = s.accounts.map Account.account_name := by
  unfold addedState
  rw [setAccount_names _ _ _ (fun a => add_transaction_oid_name a s.nextOid)]
  exact setAccount_names _ _ _ (fun a => update_balance_name a amtv t)

theorem consistent_addedState {s : State} {t : TransactionType} {c an : String}
    {amtv : Int} {now : Nat} {desc : String} (hc : Consistent s) :
    Consistent (addedState s t c an amtv now desc) := by
  have hres := hc.ts_resolves
  have hb := hc.oid_bound
  constructor
  · rw [addedState_mmList]
    exact hc.mm_aliased
  · rw [addedState_tsList]
    have hnin : s.nextOid ∉ s.tsList := by
      intro hmem
      have := hres _ hmem
      rw [Option.isSome_iff_exists] at this
      obtain ⟨tx, htx⟩ := this
      have h1 := hb tx (heapFind_mem htx)
      rw [heapFind_oid htx] at h1
      omega
    refine hc.ts_nodup.append (List.nodup_singleton _) ?_
    intro x hx hmem
    have : x = s.nextOid := by simpa using hmem
    subst this
    exact hnin hx
  · intro oid hmem
    rw [addedState_tsList] at hmem
    rw [List.mem_append] at hmem
    cases hmem with
    | inl h =>
      have h1 : oid < s.nextOid := by
        have := hres oid h
        rw [Option.isSome_iff_exists] at this
        obtain ⟨tx, htx⟩ := this
        have := hb tx (heapFind_mem htx)
        rw [heapFind_oid htx] at this
        exact this
      rw [heapFind_addedState_old h1]
      exact hres oid h
    | inr h =>
      have : oid = s.nextOid := by simpa using h
      subst this
      rw [heapFind_addedState_new hb]
      rfl
  · rw [addedState_heap, List.map_append]
    have hnin : s.nextOid ∉ s.heap.map Transaction.oid := by
      intro hmem
      rw [List.mem_map] at hmem
      obtain ⟨x, hx, he⟩ := hmem
      have := hb x hx
      omega
    refine hc.heap_oids_nodup.append (List.nodup_singleton _) ?_
    intro x hx hmem
    have : x = (mkTransaction s t c an amtv now desc).oid := by simpa using hmem
    subst this
    exact hnin hx
  · rw [tsTxs_addedState hres hb, List.map_append]
    have hnin : next_transaction_id s ∉ (tsTxs s).map Transaction.transaction_id := by
      intro hmem
      rw [List.mem_map] at hmem
      obtain ⟨x, hx, he⟩ := hmem
      have := transaction_id_lt_next hx
      omega
    refine hc.ids_nodup.append (List.nodup_singleton _) ?_
    intro x hx hmem
    have : x = (mkTransaction s t c an amtv now desc).transaction_id := by simpa using hmem
    subst this
    exact hnin hx
  · rw [addedState_names]
    exact hc.names_nodup
  · intro x hx
    rw [addedState_heap] at hx
    rw [addedState_nextOid]
    rw [List.mem_append] at hx
    cases hx with
    | inl h =>
      have := hb x h
      omega
    | inr h =>
      have : x = mkTransaction s t c an amtv now desc := by simpa using h
      subst this
      show s.nextOid < s.nextOid + 1
      omega

/-- The store after a successful `delete_transaction` of `tx`. -/
def removedState (s : State) (tx : Transaction) : State :=
  { (setAccount
      (setAccount s tx.account (fun a => a.reverse_balance tx.amount tx.transaction_type))
      tx.account (fun a => a.remove_transaction tx.oid)) with
    tsList := s.tsList.erase tx.oid }

theorem delete_transaction_ok {s : State} {tid : Nat} {tx : Transaction}
    (h : get_transaction s tid = some tx) :
    delete_transaction tid s = (.ok true, removedState s tx) := by
  unfold delete_transaction
  rw [h]
  rfl

theorem get_transaction_mem {s : State} {tid : Nat} {tx : Transaction}
    (h : get_transaction s tid = some tx) :
    tx ∈ tsTxs s ∧ tx.transaction_id = tid := by
  refine ⟨List.mem_of_find?_eq_some h, ?_⟩
  have := List.find?_some h
  simpa using this

theorem removedState_heap (s : State) (tx : Transaction) :
    (removedState s tx).heap = s.heap := rfl

theorem removedState_tsList (s : State) (tx : Transaction) :
    (removedState s tx).tsList = s.tsList.erase tx.oid := rfl

theorem removedState_mmList (s : State) (tx : Transaction) :
    (removedState s tx).mmList = s.mmList := rfl

theorem heapFind_removedState (s : State) (tx : Transaction) (oid : Nat) :
    heapFind (removedState s tx) oid = heapFind s oid := rfl

theorem tsTxs_removedState {s : State} {tx : Transaction} (hc : Consistent s)
    (hmem : tx ∈ tsTxs s) :
    ∃ A B, tsTxs s = A ++ tx :: B ∧ tsTxs (removedState s tx) = A ++ B ∧
      (∀ y ∈ A, y.oid ≠ tx.oid) ∧ (∀ y ∈ B, y.oid ≠ tx.oid) := by
  obtain ⟨ho, hfind⟩ := oid_mem_tsList_of_mem_tsTxs hmem
  obtain ⟨L1, L2, hdec⟩ := List.append_of_mem ho
  have hnd := hc.ts_nodup
  rw [hdec] at hnd
  have h1 : tx.oid ∉ L1 := by
    rw [List.nodup_append] at hnd
    intro hx
    exact hnd.2.2 hx (by simp)
  have h2 : tx.oid ∉ L2 := by
    rw [List.nodup_append] at hnd
    have := hnd.2.1
    rw [List.nodup_cons] at this
    exact this.1
  refine ⟨L1.filterMap (heapFind s), L2.filterMap (heapFind s), ?_, ?_, ?_, ?_⟩
  · unfold tsTxs resolveTxs
    rw [hdec, List.filterMap_append, List.filterMap_cons, hfind]
  · unfold tsTxs resolveTxs
    rw [removedState_tsList, hdec, List.erase_append_right _ h1, List.erase_cons_head,
      List.filterMap_append]
    rfl
  · intro y hy
    rw [List.mem_filterMap] at hy
    obtain ⟨o, ho1, ho2⟩ := hy
    rw [heapFind_oid ho2]
    intro he
    rw [he] at ho1
    exact h1 ho1
  · intro y hy
    rw [List.mem_filterMap] at hy
    obtain ⟨o, ho1, ho2⟩ := hy
    rw [heapFind_oid ho2]
    intro he
    rw [he] at ho1
    exact h2 ho1

theorem removedState_names (s : State) (tx : Transaction) :
    (removedState s tx).accounts.map Account.account_name
      = s.accounts.map Account.account_name := by
  show (setAccount
      (setAccount s tx.account (fun a => a.reverse_balance tx.amount tx.transaction_type))
      tx.account (fun a => a.remove_transaction tx.oid)).accounts.map Account.account_name
    = s.accounts.map Account.account_name
  rw [setAccount_names _ _ _ (fun a => remove_transaction_name a tx.oid)]
  exact setAccount_names _ _ _ (fun a => reverse_balance_name a tx.amount tx.transaction_type)

theorem consistent_removedState {s : State} {tx : Transaction} (hc : Consistent s)
    (hmem : tx ∈ tsTxs s) : Consistent (removedState s tx) := by
  constructor
  · rw [removedState_mmList]
    exact hc.mm_aliased
  · rw [removedState_tsList]
    exact hc.ts_nodup.erase _
  · intro oid ho
    rw [removedState_tsList] at ho
    rw [heapFind_removedState]
    exact hc.ts_resolves oid (List.mem_of_mem_erase ho)
  · rw [removedState_heap]
    exact hc.heap_oids_nodup
  · obtain ⟨A, B, hAB, hAB2, _, _⟩ := tsTxs_removedState hc hmem
    rw [hAB2]
    have hnd := hc.ids_nodup
    rw [hAB] at hnd
    refine List.Nodup.sublist ?_ hnd
    rw [List.map_append, List.map_append, List.map_cons]
    exact List.Sublist.append_left (List.sublist_cons_self _ _) _
  · rw [removedState_names]
    exact hc.names_nodup
  · intro x hx
    rw [removedState_heap] at hx
    exact hc.oid_bound x hx

theorem foldl_max_mem (l : List Nat) (init : Nat) :
    l.foldl Nat.max init ∈ l ∨ l.foldl Nat.max init = init := by
  induction l generalizing init with
  | nil => right; rfl
  | cons a as ih =>
    rw [List.foldl_cons]
    cases ih (Nat.max init a) with
    | inl h => left; exact List.mem_cons_of_mem _ h
    | inr h =>
      by_cases hia : init ≤ a
      · left
        have hma : Nat.max init a = a := Nat.max_eq_right hia
        rw [h, hma]
        exact List.mem_cons_self _ _
      · right
        have hma : Nat.max init a = init := Nat.max_eq_left (Nat.le_of_not_le hia)
        rw [h, hma]

theorem foldl_max_le (l : List Nat) (init m : Nat) (h0 : init ≤ m)
    (h : ∀ x ∈ l, x ≤ m) : l.foldl Nat.max init ≤ m := by
  induction l generalizing init with
  | nil => exact h0
  | cons a as ih =>
    rw [List.foldl_cons]
    exact ih _ (Nat.max_le.mpr ⟨h0, h a (by simp)⟩) (fun x hx => h x (by simp [hx]))

theorem foldl_max_eq {l : List Nat} {m : Nat} (hm : m ∈ l) (hb : ∀ x ∈ l, x ≤ m) :
    l.foldl Nat.max 0 = m :=
  Nat.le_antisymm (foldl_max_le l 0 m (Nat.zero_le m) hb) ((le_foldl_max l 0).2 m hm)

theorem is_valid_category_addedState (s : State) (t : TransactionType) (c an : String)
    (amtv : Int) (now : Nat) (desc : String) (c2 : String) (t2 : TransactionType) :
    is_valid_category (addedState s t c an amtv now desc) c2 t2
      = is_valid_category s c2 t2 := by
  cases t2 <;> rfl

theorem findAccount_addedState_isSome (s : State) (t : TransactionType) (c an : String)
    (amtv : Int) (now : Nat) (desc : String) (name : String) :
    (findAccount (addedState s t c an amtv now desc) name).isSome
      = (findAccount s name).isSome := by
  have e1 : findAccount (addedState s t c an amtv now desc) name
      = findAccount (setAccount (setAccount s an (fun a => a.update_balance amtv t)) an
          (fun a => a.add_transaction s.nextOid)) name := rfl
  rw [e1, findAccount_setAccount _ _ _ _ (fun a => add_transaction_oid_name a _),
      findAccount_setAccount _ _ _ _ (fun a => update_balance_name a _ _)]
  cases findAccount s name <;> rfl

/-- The validation steps of `add_transaction` all pass on this store. -/
def AddInputsValid (s : State) (ti cat acct amt : String) : Prop :=
  ∃ t c an, validate_transaction_type ti = .ok t ∧
    validate_non_empty_string cat = .ok c ∧
    is_valid_category s c t = true ∧
    validate_non_empty_string acct = .ok an ∧
    (findAccount s an).isSome = true ∧
    ∃ v, validate_non_negative_amount amt = .ok v

theorem addTx_step {s : State} {ti cat acct amt desc : String} {now : Nat}
    (hc : Consistent s) (hv : AddInputsValid s ti cat acct amt) :
    (tsTxs (applyOp (Op.addTx ti cat acct amt desc now) s)).map Transaction.transaction_id
        = (tsTxs s).map Transaction.transaction_id ++ [next_transaction_id s]
      ∧ Consistent (applyOp (Op.addTx ti cat acct amt desc now) s)
      ∧ AddInputsValid (applyOp (Op.addTx ti cat acct amt desc now) s) ti cat acct amt := by
  obtain ⟨t, c, an, h1, h2, h3, h4, h5, v, h6⟩ := hv
  rw [Option.isSome_iff_exists] at h5
  obtain ⟨a0, h5⟩ := h5
  have e : applyOp (Op.addTx ti cat acct amt desc now) s = addedState s t c an v now desc := by
    show (add_transaction ti cat acct amt desc now s).2 = addedState s t c an v now desc
    rw [add_transaction_ok h1 h2 h3 h4 h5 h6]
  rw [e]
  refine ⟨?_, consistent_addedState hc, ?_⟩
  · rw [tsTxs_addedState hc.ts_resolves hc.oid_bound, List.map_append]
    rfl
  · refine ⟨t, c, an, h1, h2, ?_, h4, ?_, ⟨v, h6⟩⟩
    · rw [is_valid_category_addedState]
      exact h3
    · rw [findAccount_addedState_isSome, h5]
      rfl

theorem next_id_range {s : State} {k : Nat}
    (hids : (tsTxs s).map Transaction.transaction_id = List.range' 1 k) :
    next_transaction_id s = k + 1 := by
  unfold next_transaction_id
  cases k with
  | zero =>
    have he : (tsTxs s).isEmpty = true := by
      rw [List.isEmpty_iff]
      exact List.map_eq_nil_iff.mp hids
    rw [if_pos he]
  | succ k2 =>
    have hne : ¬ (tsTxs s).isEmpty = true := by
      intro he
      rw [List.isEmpty_iff] at he
      rw [he] at hids
      simp at hids
    rw [if_neg hne, hids]
    have hm : k2 + 1 ∈ List.range' 1 (k2 + 1) := by
      rw [List.mem_range'_1]
      omega
    have hb : ∀ x ∈ List.range' 1 (k2 + 1), x ≤ k2 + 1 := by
      intro x hx
      rw [List.mem_range'_1] at hx
      omega
    rw [foldl_max_eq hm hb]

theorem ids_replicate_adds (N : Nat) :
    ∀ (s : State) (k : Nat) (ti cat acct amt desc : String) (now : Nat),
      Consistent s → AddInputsValid s ti cat acct amt →
      (tsTxs s).map Transaction.transaction_id = List.range' 1 k →
      (tsTxs (applyOps (List.replicate N (Op.addTx ti cat acct amt desc now)) s)).map
        Transaction.transaction_id = List.range' 1 (k + N) := by
  induction N with
  | zero =>
    intro s k ti cat acct amt desc now _ _ hids
    exact hids
  | succ n ih =>
    intro s k ti cat acct amt desc now hc hv hids
    rw [List.replicate_succ]
    show (tsTxs (applyOps (List.replicate n (Op.addTx ti cat acct amt desc now))
        (applyOp (Op.addTx ti cat acct amt desc now) s))).map Transaction.transaction_id
      = List.range' 1 (k + (n + 1))
    obtain ⟨hstep, hc2, hv2⟩ := addTx_step hc hv
    have hids2 : (tsTxs (applyOp (Op.addTx ti cat acct amt desc now) s)).map
        Transaction.transaction_id = List.range' 1 (k + 1) := by
      rw [hstep, hids, next_id_range hids, List.range'_1_concat, Nat.add_comm 1 k]
    have := ih _ (k + 1) ti cat acct amt desc now hc2 hv2 hids2
    rw [this]
    congr 1
    omega

/-- C9: `next_transaction_id` is 1 on an empty transaction list and
`max(ids) + 1` otherwise; starting from a consistent store with no
transactions, N successful `add_transaction` calls produce ids exactly
`1..N` in call order; and after deleting the transaction with the maximum id
`N` from such a store, the next id is again `N` (the id is reused). -/
theorem next_id_c9 :
    (∀ s : State, tsTxs s = [] → next_transaction_id s = 1) ∧
    (∀ s : State, tsTxs s ≠ [] →
      ∃ m, m ∈ (tsTxs s).map Transaction.transaction_id ∧
        (∀ x ∈ (tsTxs s).map Transaction.transaction_id, x ≤ m) ∧
        next_transaction_id s = m + 1) ∧
    (∀ (N : Nat) (s : State) (ti cat acct amt desc : String) (now : Nat),
      Consistent s → AddInputsValid s ti cat acct amt → tsTxs s = [] →
      (tsTxs (applyOps (List.replicate N (Op.addTx ti cat acct amt desc now)) s)).map
        Transaction.transaction_id = List.range' 1 N) ∧
    (∀ (s : State) (N : Nat), Consistent s →
      (tsTxs s).map Transaction.transaction_id = List.range' 1 N → 1 ≤ N →
      ∃ tx, get_transaction s N = some tx ∧
        next_transaction_id (delete_transaction N s).2 = N) := by
  refine ⟨?_, ?_, ?_, ?_⟩
  · intro s hs
    unfold next_transaction_id
    rw [if_pos (List.isEmpty_iff.mpr hs)]
  · intro s hs
    refine ⟨((tsTxs s).map Transaction.transaction_id).foldl Nat.max 0, ?_, ?_, ?_⟩
    · cases foldl_max_mem ((tsTxs s).map Transaction.transaction_id) 0 with
      | inl h => exact h
      | inr h =>
        rw [h]
        have hne : (tsTxs s).map Transaction.transaction_id ≠ [] := by
          intro he2
          exact hs (List.map_eq_nil_iff.mp he2)
        obtain ⟨y, hy⟩ := List.exists_mem_of_ne_nil _ hne
        have hle := (le_foldl_max ((tsTxs s).map Transaction.transaction_id) 0).2 y hy
        rw [h] at hle
        have hy0 : y = 0 := by omega
        rw [← hy0]
        exact hy
    · exact (le_foldl_max _ 0).2
    · unfold next_transaction_id
      rw [if_neg (by rw [List.isEmpty_iff]; exact hs)]
  · intro N s ti cat acct amt desc now hc hv hs
    have h0 : (tsTxs s).map Transaction.transaction_id = List.range' 1 0 := by
      rw [hs]
      rfl
    have := ids_replicate_adds N s 0 ti cat acct amt desc now hc hv h0
    rwa [Nat.zero_add] at this
  · intro s N hc hids hN
    have hNmem : N ∈ (tsTxs s).map Transaction.transaction_id := by
      rw [hids, List.mem_range'_1]
      omega
    rw [List.mem_map] at hNmem
    obtain ⟨tx1, htx1, hid1⟩ := hNmem
    have hsome : (get_transaction s N).isSome = true := by
      rw [get_transaction, List.find?_isSome]
      exact ⟨tx1, htx1, by simp [hid1]⟩
    rw [Option.isSome_iff_exists] at hsome
    obtain ⟨tx, hget⟩ := hsome
    refine ⟨tx, hget, ?_⟩
    obtain ⟨hmem, hid⟩ := get_transaction_mem hget
    rw [delete_transaction_ok hget]
    obtain ⟨A, B, hAB, hAB2, _, _⟩ := tsTxs_removedState hc hmem
    have hnd := hc.ids_nodup
    rw [hAB, List.map_append, List.map_cons, hid] at hnd
    have hNA : N ∉ A.map Transaction.transaction_id := by
      rw [List.nodup_append] at hnd
      intro hx
      exact hnd.2.2 hx (by simp)
    have hNB : N ∉ B.map Transaction.transaction_id := by
      rw [List.nodup_append] at hnd
      have := hnd.2.1
      rw [List.nodup_cons] at this
      exact this.1
    have hidsAB : A.map Transaction.transaction_id ++ N :: B.map Transaction.transaction_id
        = List.range' 1 N := by
      have h1 : (tsTxs s).map Transaction.transaction_id
          = A.map Transaction.transaction_id
            ++ tx.transaction_id :: B.map Transaction.transaction_id := by
        rw [hAB, List.map_append, List.map_cons]
      rw [hids, hid] at h1
      exact h1.symm
    by_cases hE : A ++ B = []
    · have hA : A = [] := by
        cases A with
        | nil => rfl
        | cons x xs => cases hE
      have hB : B = [] := by
        rw [hA] at hE
        exact hE
      have hN1 : N = 1 := by
        rw [hA, hB] at hidsAB
        have := congrArg List.length hidsAB
        simpa using this.symm
      have hemp : tsTxs (removedState s tx) = [] := by
        rw [hAB2, hA, hB]
        simp
      unfold next_transaction_id
      rw [hemp]
      simp
      omega
    · have hlen : 2 ≤ N := by
        have := congrArg List.length hidsAB
        simp at this
        have hlenAB : 1 ≤ A.length + B.length := by
          have hpos := List.length_pos.mpr hE
          rw [List.length_append] at hpos
          omega
        omega
      have hbnd : ∀ x ∈ (A ++ B).map Transaction.transaction_id, x ≤ N - 1 := by
        intro x hx
        have hx2 : x ∈ A.map Transaction.transaction_id ++ N :: B.map Transaction.transaction_id := by
          rw [List.map_append, List.mem_append] at hx
          rw [List.mem_append]
          cases hx with
          | inl h => exact Or.inl h
          | inr h => exact Or.inr (List.mem_cons_of_mem _ h)
        have hxr : x ∈ List.range' 1 N := by
          rw [← hidsAB]
          exact hx2
        rw [List.mem_range'_1] at hxr
        have hxne : x ≠ N := by
          intro he
          subst he
          rw [List.map_append, List.mem_append] at hx
          cases hx with
          | inl h => exact hNA h
          | inr h => exact hNB h
        omega
      have hmem2 : N - 1 ∈ (A ++ B).map Transaction.transaction_id := by
        have hr : N - 1 ∈ List.range' 1 N := by
          rw [List.mem_range'_1]
          omega
        rw [← hidsAB, List.mem_append] at hr
        rw [List.map_append, List.mem_append]
        cases hr with
        | inl h => exact Or.inl h
        | inr h =>
          rw [List.mem_cons] at h
          cases h with
          | inl he => omega
          | inr h2 => exact Or.inr h2
      unfold next_transaction_id
      rw [hAB2]
      rw [if_neg (by rw [List.isEmpty_iff]; exact hE)]
      rw [foldl_max_eq hmem2 hbnd]
      omega

/-- A consistent store with one account, default categories and no
transactions. -/
def emptyStore : State :=
  { accounts := [{ account_name := "Checking", balance := 10000, transactions := [] }]
    heap := []
    tsList := []
    mmList := none
    nextOid := 0
    income_categories := defaultIncomeCategories
    expense_categories := defaultExpenseCategories }

/-- Witness for C9: two adds on an empty consistent store yield ids `[1, 2]`. -/
theorem next_id_c9_witness :
    (tsTxs (applyOps (List.replicate 2 (Op.addTx "income" "Salary" "Checking" "50" "d" 0))
      emptyStore)).map Transaction.transaction_id = List.range' 1 2 :=
  next_id_c9.2.2.1 2 emptyStore "income" "Salary" "Checking" "50" "d" 0
    (by constructor <;> decide)
    ⟨.income, "Salary", "Checking", rfl, rfl, by decide, rfl, by decide, ⟨5000, rfl⟩⟩
    rfl

/-- The store after a successful `edit_category` rename. -/
def renamedState (s : State) (t : TransactionType) (oldc newc : String) : State :=
  let s1 := set_categories s t (replaceFirst (get_categories s t) oldc newc)
  { s1 with
    heap := s1.heap.map (fun tx =>
      if (mmOids s).contains tx.oid ∧ tx.category = oldc ∧ tx.transaction_type = t
      then { tx with category := newc } else tx) }

theorem edit_category_ok {old new ti : String} {s : State} {t : TransactionType}
    {oldc newc : String}
    (h1 : validate_transaction_type ti = .ok t)
    (h2 : validate_non_empty_string old = .ok oldc)
    (h3 : validate_non_empty_string new = .ok newc)
    (h4 : (get_categories s t).contains oldc = true)
    (h5 : ¬((get_categories s t).contains newc = true ∧ newc ≠ oldc)) :
    edit_category old new ti s = (.ok (), renamedState s t oldc newc) := by
  unfold edit_category
  rw [h1]
  dsimp only
  rw [h2]
  dsimp only
  rw [h3]
  dsimp only
  rw [if_neg (by rw [h4]; simp), if_neg h5]
  rfl

theorem replaceFirst_eq_set (l : List String) (old new : String) (h : old ∈ l) :
    replaceFirst l old new = l.set (l.indexOf old) new := by
  induction l with
  | nil => cases h
  | cons x xs ih =>
    by_cases hx : x = old
    · subst hx
      unfold replaceFirst
      rw [if_pos rfl]
      have : (x :: xs).indexOf x = 0 := by
        unfold List.indexOf
        rw [List.findIdx_cons]
        simp
      rw [this]
      rfl
    · unfold replaceFirst
      rw [if_neg hx]
      have hmem : old ∈ xs := by
        cases h with
        | head => exact absurd rfl hx
        | tail _ h2 => exact h2
      have : (x :: xs).indexOf old = xs.indexOf old + 1 := by
        unfold List.indexOf
        rw [List.findIdx_cons]
        have : (x == old) = false := by
          simp [hx]
        rw [this]
        simp
      rw [this, ih hmem]
      rfl

theorem tsTxs_heap_map {s s2 : State} (u : Transaction → Transaction)
    (hu : ∀ tx, (u tx).oid = tx.oid)
    (hheap : s2.heap = s.heap.map u) (hts : s2.tsList = s.tsList) :
    tsTxs s2 = (tsTxs s).map u := by
  unfold tsTxs resolveTxs
  rw [hts]
  have hfind : ∀ o, heapFind s2 o = (heapFind s o).map u := by
    intro o
    unfold heapFind
    rw [hheap, List.find?_map]
    have hpred : ((fun t : Transaction => t.oid == o) ∘ u)
        = (fun t : Transaction => t.oid == o) := by
      funext tx
      simp [Function.comp, hu]
    rw [hpred]
  calc s.tsList.filterMap (heapFind s2)
      = s.tsList.filterMap (fun o => (heapFind s o).map u) := by
        apply List.filterMap_congr
        intro o _
        exact hfind o
    _ = (s.tsList.filterMap (heapFind s)).map u := (List.map_filterMap _ _ _).symm

/-- C7: a successful category rename `(old, new, type)` replaces the entry in
place (same list position), rewrites the category of exactly the transactions
whose `(category, type)` pair matches, leaves every other transaction and the
other type's category list unchanged, and does not touch accounts or the
transaction lists. -/
theorem rename_category_c7 {old new ti : String} {s : State} {t : TransactionType}
    {oldc newc : String} (hc : Consistent s)
    (h1 : validate_transaction_type ti = .ok t)
    (h2 : validate_non_empty_string old = .ok oldc)
    (h3 : validate_non_empty_string new = .ok newc)
    (h4 : oldc ∈ get_categories s t)
    (h5 : newc ∉ get_categories s t ∨ newc = oldc) :
    ∃ s2, edit_category old new ti s = (.ok (), s2) ∧
      get_categories s2 t = (get_categories s t).set ((get_categories s t).indexOf oldc) newc ∧
      (∀ t2, t2 ≠ t → get_categories s2 t2 = get_categories s t2) ∧
      tsTxs s2 = (tsTxs s).map (fun tx =>
        if tx.category = oldc ∧ tx.transaction_type = t
        then { tx with category := newc } else tx) ∧
      s2.accounts = s.accounts ∧ s2.tsList = s.tsList ∧ s2.mmList = s.mmList := by
  have h4b : (get_categories s t).contains oldc = true := by
    rw [List.contains_iff_exists_mem_beq]
    exact ⟨oldc, h4, by simp⟩
  have h5b : ¬((get_categories s t).contains newc = true ∧ newc ≠ oldc) := by
    rintro ⟨hcont, hne⟩
    cases h5 with
    | inl h =>
      apply h
      rw [List.contains_iff_exists_mem_beq] at hcont
      obtain ⟨y, hy, hbeq⟩ := hcont
      rw [show newc = y from by simpa using hbeq]
      exact hy
    | inr h => exact hne h
  refine ⟨renamedState s t oldc newc, edit_category_ok h1 h2 h3 h4b h5b, ?_, ?_, ?_, ?_, ?_, ?_⟩
  · have : get_categories (renamedState s t oldc newc) t
        = replaceFirst (get_categories s t) oldc newc := by
      cases t <;> rfl
    rw [this, replaceFirst_eq_set _ _ _ h4]
  · intro t2 ht2
    cases t <;> cases t2 <;> first | rfl | exact absurd rfl ht2
  · have hmap := tsTxs_heap_map
      (fun tx => if (mmOids s).contains tx.oid ∧ tx.category = oldc ∧ tx.transaction_type = t
        then { tx with category := newc } else tx)
      (fun tx => by dsimp only; split <;> rfl)
      (show (renamedState s t oldc newc).heap = _ by cases t <;> rfl)
      (show (renamedState s t oldc newc).tsList = s.tsList by cases t <;> rfl)
    rw [hmap]
    apply List.map_congr_left
    intro tx htx
    have hoid : tx.oid ∈ s.tsList := (oid_mem_tsList_of_mem_tsTxs htx).1
    have hcont : (mmOids s).contains tx.oid = true := by
      unfold mmOids
      rw [hc.mm_aliased]
      rw [List.contains_iff_exists_mem_beq]
      exact ⟨tx.oid, hoid, by simp⟩
    by_cases hcond : tx.category = oldc ∧ tx.transaction_type = t
    · rw [if_pos ⟨hcont, hcond.1, hcond.2⟩, if_pos hcond]
    · rw [if_neg (by rintro ⟨_, hx1, hx2⟩; exact hcond ⟨hx1, hx2⟩), if_neg hcond]
  · cases t <;> rfl
  · cases t <;> rfl
  · cases t <;> rfl

/-- Witness for C7: renaming Expense category `"Food"` to `"Meals"` on the
sample store. -/
theorem rename_category_c7_witness :
    ∃ s2, edit_category "food" "meals" "expense" sampleState = (.ok (), s2) ∧
      get_categories s2 .expense
        = (get_categories sampleState .expense).set
            ((get_categories sampleState .expense).indexOf "Food") "Meals" ∧
      (∀ t2, t2 ≠ TransactionType.expense →
        get_categories s2 t2 = get_categories sampleState t2) ∧
      tsTxs s2 = (tsTxs sampleState).map (fun tx =>
        if tx.category = "Food" ∧ tx.transaction_type = .expense
        then { tx with category := "Meals" } else tx) ∧
      s2.accounts = sampleState.accounts ∧ s2.tsList = sampleState.tsList ∧
      s2.mmList = sampleState.mmList :=
  rename_category_c7 (by constructor <;> decide) rfl rfl rfl (by decide) (by decide)

theorem balanceOf_accounts_eq {s1 s2 : State} (h : s1.accounts = s2.accounts)
    (name : String) : balanceOf s1 name = balanceOf s2 name := by
  unfold balanceOf findAccount
  rw [h]

theorem balanceOf_setAccount_ne {s : State} {n name : String} {f : Account → Account}
    (hf : ∀ a, (f a).account_name = a.account_name) (hne : name ≠ n) :
    balanceOf (setAccount s n f) name = balanceOf s name := by
  unfold balanceOf
  rw [findAccount_setAccount_ne hf hne]

theorem balanceOf_setAccount_self {s : State} {n : String} {f : Account → Account}
    (hf : ∀ a, (f a).account_name = a.account_name) :
    balanceOf (setAccount s n f) n =
      match findAccount s n with
      | some a => (f a).balance
      | none => 0 := by
  unfold balanceOf
  rw [findAccount_setAccount_self hf]
  cases findAccount s n <;> rfl

theorem balanceOf_addedState (s : State) (t : TransactionType) (c an : String)
    (amtv : Int) (now : Nat) (desc : String) (name : String) :
    balanceOf (addedState s t c an amtv now desc) name
      = if name = an then
          (match findAccount s an with
           | some a => (a.update_balance amtv t).balance
           | none => 0)
        else balanceOf s name := by
  have e1 : balanceOf (addedState s t c an amtv now desc) name
      = balanceOf (setAccount (setAccount s an (fun a => a.update_balance amtv t)) an
          (fun a => a.add_transaction s.nextOid)) name :=
    balanceOf_accounts_eq rfl name
  rw [e1]
  by_cases hne : name = an
  · subst hne
    rw [balanceOf_setAccount_self (fun a => add_transaction_oid_name a _)]
    rw [findAccount_setAccount_self (fun a => update_balance_name a _ _)]
    rw [if_pos rfl]
    cases findAccount s name <;> rfl
  · rw [balanceOf_setAccount_ne (fun a => add_transaction_oid_name a _) hne,
        balanceOf_setAccount_ne (fun a => update_balance_name a _ _) hne, if_neg hne]

theorem mmOids_addedState (s : State) (t : TransactionType) (c an : String)
    (amtv : Int) (now : Nat) (desc : String) {l : List Nat} (h : s.mmList = some l) :
    mmOids (addedState s t c an amtv now desc) = l := by
  unfold mmOids
  rw [addedState_mmList, h]
  rfl

theorem mmTxs_addedState_desync {s : State} {t : TransactionType} {c an : String}
    {amtv : Int} {now : Nat} {desc : String} {l : List Nat} (h : s.mmList = some l)
    (hb : ∀ o ∈ l, o < s.nextOid) :
    mmTxs (addedState s t c an amtv now desc) = mmTxs s := by
  unfold mmTxs resolveTxs
  rw [mmOids_addedState s t c an amtv now desc h]
  have : mmOids s = l := by
    unfold mmOids
    rw [h]
    rfl
  rw [this]
  apply List.filterMap_congr
  intro o ho
  exact heapFind_addedState_old (hb o ho)

theorem applyOp_mmList_isSome (op : Op) (s : State) (h : s.mmList.isSome = true) :
    (applyOp op s).mmList.isSome = true := by
  cases op with
  | addTx a b c d e now =>
    show (add_transaction a b c d e now s).2.mmList.isSome = true
    unfold add_transaction
    repeat' first | split | dsimp only
    all_goals exact h
  | editTx tid a b c d e =>
    show (edit_transaction tid a b c d e s).2.mmList.isSome = true
    unfold edit_transaction
    repeat' first | split | dsimp only
    all_goals exact h
  | delTx tid =>
    show (delete_transaction tid s).2.mmList.isSome = true
    unfold delete_transaction
    repeat' first | split | dsimp only
    all_goals exact h
  | addAccount n b =>
    show (add_account n b s).2.mmList.isSome = true
    unfold add_account
    repeat' first | split | dsimp only
    all_goals exact h
  | editAccountName o n =>
    show (edit_account_name o n s).2.mmList.isSome = true
    unfold edit_account_name
    repeat' first | split | dsimp only
    all_goals exact h
  | delAccount n =>
    show (delete_account n s).2.mmList.isSome = true
    unfold delete_account
    repeat' first | split | dsimp only
    all_goals first | exact h | rfl
  | addCat c t =>
    show (add_category c t s).2.mmList.isSome = true
    unfold add_category
    repeat' first | split | dsimp only
    all_goals first | exact h | (cases ‹TransactionType› <;> exact h)
  | editCat o n t =>
    show (edit_category o n t s).2.mmList.isSome = true
    unfold edit_category
    repeat' first | split | dsimp only
    all_goals first | exact h | (cases ‹TransactionType› <;> exact h)
  | delCat c t =>
    show (delete_category c t s).2.mmList.isSome = true
    unfold delete_category
    repeat' first | split | dsimp only
    all_goals first | exact h | (cases ‹TransactionType› <;> exact h)

/-- C6: once `delete_account` has succeeded, `MoneyManager.transactions` is a
fresh list (`mmList` is rebound, and stays rebound under every further
operation); from then on a successful `add_transaction` appends the new
transaction only to the service-cached list: the service's list grows by the
transaction, the data written by `save` is unchanged and does not contain it,
even though the target account's balance was updated. -/
theorem desync_add_c6 :
    (∀ (name : String) (s s2 : State),
      delete_account name s = (.ok true, s2) → s2.mmList.isSome = true) ∧
    (∀ (op : Op) (s : State), s.mmList.isSome = true →
      (applyOp op s).mmList.isSome = true) ∧
    (∀ (s : State) (ti cat acct amt desc : String) (now : Nat) (l : List Nat),
      s.mmList = some l →
      (∀ oid ∈ s.tsList, (heapFind s oid).isSome = true) →
      (∀ x ∈ s.heap, x.oid < s.nextOid) →
      (∀ o ∈ l, o < s.nextOid) →
      AddInputsValid s ti cat acct amt →
      ∃ tx s2, add_transaction ti cat acct amt desc now s = (.ok tx, s2) ∧
        tsTxs s2 = tsTxs s ++ [tx] ∧
        saved_transactions s2 = saved_transactions s ∧
        tx ∉ saved_transactions s2 ∧
        balanceOf s2 tx.account = balanceOf s tx.account + signedAmt tx) := by
  refine ⟨?_, applyOp_mmList_isSome, ?_⟩
  · intro name s s2 h
    unfold delete_account at h
    split at h
    · simp at h
    · split at h
      · simp at h
      · obtain ⟨h1, h2⟩ := Prod.mk.inj h
        subst h2
        rfl
  · intro s ti cat acct amt desc now l hmm hres hb hbl hv
    obtain ⟨t, c, an, h1, h2, h3, h4, h5, v, h6⟩ := hv
    rw [Option.isSome_iff_exists] at h5
    obtain ⟨a0, h5⟩ := h5
    refine ⟨mkTransaction s t c an v now desc, addedState s t c an v now desc,
      add_transaction_ok h1 h2 h3 h4 h5 h6, ?_, ?_, ?_, ?_⟩
    · exact tsTxs_addedState hres hb
    · show mmTxs (addedState s t c an v now desc) = mmTxs s
      exact mmTxs_addedState_desync hmm hbl
    · show mkTransaction s t c an v now desc ∉ mmTxs (addedState s t c an v now desc)
      rw [mmTxs_addedState_desync hmm hbl]
      intro hmem
      unfold mmTxs resolveTxs at hmem
      rw [List.mem_filterMap] at hmem
      obtain ⟨o, _, hfind⟩ := hmem
      have hinheap := heapFind_mem hfind
      have := hb _ hinheap
      have hoid : (mkTransaction s t c an v now desc).oid = s.nextOid := rfl
      omega
    · have haccount : (mkTransaction s t c an v now desc).account = an := rfl
      rw [haccount, balanceOf_addedState, if_pos rfl, h5]
      have hbal : balanceOf s an = a0.balance := by
        unfold balanceOf
        rw [h5]
      dsimp only
      rw [hbal, update_balance_balance]
      congr 1

/-- A consistent store with two accounts; the only transaction belongs to
`"Checking"`. -/
def twoAccountStore : State :=
  { accounts := [{ account_name := "Checking", balance := 10000, transactions := [1] },
                 { account_name := "Savings", balance := 5000, transactions := [] }]
    heap := [{ oid := 1, transaction_id := 1, date_time := 0, transaction_type := .income,
               category := "Salary", account := "Checking", amount := 5000,
               description := "pay" }]
    tsList := [1]
    mmList := none
    nextOid := 2
    income_categories := defaultIncomeCategories
    expense_categories := defaultExpenseCategories }

/-- Witness for C6: after deleting `"Checking"`, an add to `"Savings"` lands
only in the service list and is missing from the saved data. -/
theorem desync_add_c6_witness :
    ∃ tx s2, add_transaction "income" "Salary" "Savings" "20" "d" 0
        (delete_account "Checking" twoAccountStore).2 = (.ok tx, s2) ∧
      tsTxs s2 = tsTxs (delete_account "Checking" twoAccountStore).2 ++ [tx] ∧
      saved_transactions s2
        = saved_transactions (delete_account "Checking" twoAccountStore).2 ∧
      tx ∉ saved_transactions s2 ∧
      balanceOf s2 tx.account
        = balanceOf (delete_account "Checking" twoAccountStore).2 tx.account
          + signedAmt tx :=
  desync_add_c6.2.2 (delete_account "Checking" twoAccountStore).2
    "income" "Salary" "Savings" "20" "d" 0 []
    (by decide) (by decide) (by decide) (by decide)
    ⟨.income, "Salary", "Savings", rfl, rfl, by decide, rfl, by decide, ⟨2000, rfl⟩⟩

/-- The transaction object after the in-place mutation of `edit_transaction`. -/
def editedTx (tx : Transaction) (tnew : TransactionType) (cnew anew : String)
    (vnew : Int) (desc : String) : Transaction :=
  { tx with transaction_type := tnew, category := cnew, account := anew,
            amount := vnew, description := pyStrip desc }

/-- The store after a successful `edit_transaction` of `tx`. -/
def editedState (s : State) (tx : Transaction) (tnew : TransactionType)
    (cnew anew : String) (vnew : Int) (desc : String) : State :=
  let updated := editedTx tx tnew cnew anew vnew desc
  let s1 := setAccount s tx.account
    (fun a => a.reverse_balance tx.amount tx.transaction_type)
  let s2 := if tx.account ≠ anew
            then setAccount s1 tx.account (fun a => a.remove_transaction tx.oid)
            else s1
  let s3 := { s2 with heap := s2.heap.map (fun t => if t.oid == tx.oid then updated else t) }
  let s4 := if tx.account ≠ anew
            then setAccount s3 anew (fun a => a.add_transaction tx.oid)
            else s3
  setAccount s4 anew (fun a => a.update_balance vnew tnew)

theorem edit_transaction_ok {tid : Nat} {ti cat acct amt desc : String} {s : State}
    {tx : Transaction} {tnew : TransactionType} {cnew anew : String} {vnew : Int}
    (h0 : get_transaction s tid = some tx)
    (h1 : resolve_type ti tx.transaction_type = .ok tnew)
    (h2 : resolve_category s cat tx.category tnew = .ok cnew)
    (h3 : resolve_account s acct tx.account = .ok anew)
    (h4 : resolve_amount amt tx.amount = .ok vnew) :
    edit_transaction tid ti cat acct amt desc s
      = (.ok (editedTx tx tnew cnew anew vnew desc), editedState s tx tnew cnew anew vnew desc) := by
  unfold edit_transaction
  rw [h0]
  dsimp only
  rw [h1]
  dsimp only
  rw [h2]
  dsimp only
  rw [h3]
  dsimp only
  rw [h4]
  rfl

theorem add_transaction_state_cases (ti cat acct amt desc : String) (now : Nat) (s : State) :
    (add_transaction ti cat acct amt desc now s).2 = s ∨
    (∃ t c an a0 v, validate_transaction_type ti = .ok t ∧
      validate_non_empty_string cat = .ok c ∧
      is_valid_category s c t = true ∧
      validate_non_empty_string acct = .ok an ∧
      findAccount s an = some a0 ∧
      validate_non_negative_amount amt = .ok v ∧
      (add_transaction ti cat acct amt desc now s).2 = addedState s t c an v now desc) := by
  cases h1 : validate_transaction_type ti with
  | error e =>
    left
    unfold add_transaction
    simp only [h1]
  | ok t =>
  cases h2 : validate_non_empty_string cat with
  | error e =>
    left
    unfold add_transaction
    simp only [h1, h2]
  | ok c =>
  cases h3 : is_valid_category s c t with
  | false =>
    left
    unfold add_transaction
    simp only [h1, h2, h3, if_pos]
  | true =>
  cases h4 : validate_non_empty_string acct with
  | error e =>
    left
    unfold add_transaction
    simp only [h1, h2, h3, h4, Bool.true_eq_false, if_false]
  | ok an =>
  cases h5 : findAccount s an with
  | none =>
    left
    unfold add_transaction
    simp only [h1, h2, h3, h4, h5, Bool.true_eq_false, if_false]
  | some a0 =>
  cases h6 : validate_non_negative_amount amt with
  | error e =>
    left
    unfold add_transaction
    simp only [h1, h2, h3, h4, h5, h6, Bool.true_eq_false, if_false]
  | ok v =>
    right
    refine ⟨t, c, an, a0, v, rfl, rfl, h3, rfl, h5, rfl, ?_⟩
    rw [add_transaction_ok h1 h2 h3 h4 h5 h6]

theorem edit_transaction_state_cases (tid : Nat) (ti cat acct amt desc : String) (s : State) :
    (edit_transaction tid ti cat acct amt desc s).2 = s ∨
    (∃ tx tnew cnew anew vnew, get_transaction s tid = some tx ∧
      resolve_type ti tx.transaction_type = .ok tnew ∧
      resolve_category s cat tx.category tnew = .ok cnew ∧
      resolve_account s acct tx.account = .ok anew ∧
      resolve_amount amt tx.amount = .ok vnew ∧
      (edit_transaction tid ti cat acct amt desc s).2
        = editedState s tx tnew cnew anew vnew desc) := by
  cases h0 : get_transaction s tid with
  | none =>
    left
    unfold edit_transaction
    simp only [h0]
  | some tx =>
  cases h1 : resolve_type ti tx.transaction_type with
  | error e =>
    left
    unfold edit_transaction
    simp only [h0, h1]
  | ok tnew =>
  cases h2 : resolve_category s cat tx.category tnew with
  | error e =>
    left
    unfold edit_transaction
    simp only [h0, h1, h2]
  | ok cnew =>
  cases h3 : resolve_account s acct tx.account with
  | error e =>
    left
    unfold edit_transaction
    simp only [h0, h1, h2, h3]
  | ok anew =>
  cases h4 : resolve_amount amt tx.amount with
  | error e =>
    left
    unfold edit_transaction
    simp only [h0, h1, h2, h3, h4]
  | ok vnew =>
    right
    refine ⟨tx, tnew, cnew, anew, vnew, rfl, h1, h2, h3, h4, ?_⟩
    rw [edit_transaction_ok h0 h1 h2 h3 h4]

theorem delete_transaction_state_cases (tid : Nat) (s : State) :
    (delete_transaction tid s).2 = s ∨
    (∃ tx, get_transaction s tid = some tx ∧
      (delete_transaction tid s).2 = removedState s tx) := by
  cases h0 : get_transaction s tid with
  | none =>
    left
    unfold delete_transaction
    simp only [h0]
  | some tx =>
    right
    exact ⟨tx, rfl, by rw [delete_transaction_ok h0]⟩

theorem heapFind_heap_map {s s2 : State} (u : Transaction → Transaction)
    (hu : ∀ tx, (u tx).oid = tx.oid) (hheap : s2.heap = s.heap.map u) (o : Nat) :
    heapFind s2 o = (heapFind s o).map u := by
  unfold heapFind
  rw [hheap, List.find?_map]
  have hpred : ((fun t : Transaction => t.oid == o) ∘ u)
      = (fun t : Transaction => t.oid == o) := by
    funext tx
    simp [Function.comp, hu]
  rw [hpred]

/-- The in-place mutation function of `edit_transaction` on the heap. -/
def editUpd (tx : Transaction) (tnew : TransactionType) (cnew anew : String)
    (vnew : Int) (desc : String) : Transaction → Transaction :=
  fun t => if t.oid == tx.oid then editedTx tx tnew cnew anew vnew desc else t

theorem editUpd_oid (tx : Transaction) (tnew : TransactionType) (cnew anew : String)
    (vnew : Int) (desc : String) (t0 : Transaction) :
    (editUpd tx tnew cnew anew vnew desc t0).oid = t0.oid := by
  unfold editUpd
  split
  · rename_i hcond
    simp at hcond
    rw [hcond]
    rfl
  · rfl

theorem tsTxs_subset_heap {s : State} {y : Transaction} (h : y ∈ tsTxs s) :
    y ∈ s.heap := by
  unfold tsTxs resolveTxs at h
  rw [List.mem_filterMap] at h
  obtain ⟨o, _, hfind⟩ := h
  exact heapFind_mem hfind

theorem eq_of_oid_eq {s : State} {y tx : Transaction}
    (hnd : (s.heap.map Transaction.oid).Nodup) (hy : y ∈ s.heap) (htx : tx ∈ s.heap)
    (h : y.oid = tx.oid) : y = tx :=
  List.inj_on_of_nodup_map hnd hy htx h

theorem editedState_heap (s : State) (tx : Transaction) (tnew : TransactionType)
    (cnew anew : String) (vnew : Int) (desc : String) :
    (editedState s tx tnew cnew anew vnew desc).heap
      = s.heap.map (editUpd tx tnew cnew anew vnew desc) := by
  unfold editedState editUpd
  dsimp only
  by_cases h : tx.account ≠ anew
  · rw [if_pos h, if_pos h]
    rfl
  · rw [if_neg h, if_neg h]
    rfl

theorem editedState_tsList (s : State) (tx : Transaction) (tnew : TransactionType)
    (cnew anew : String) (vnew : Int) (desc : String) :
    (editedState s tx tnew cnew anew vnew desc).tsList = s.tsList := by
  unfold editedState
  dsimp only
  by_cases h : tx.account ≠ anew
  · rw [if_pos h, if_pos h]
    rfl
  · rw [if_neg h, if_neg h]
    rfl

theorem editedState_mmList (s : State) (tx : Transaction) (tnew : TransactionType)
    (cnew anew : String) (vnew : Int) (desc : String) :
    (editedState s tx tnew cnew anew vnew desc).mmList = s.mmList := by
  unfold editedState
  dsimp only
  by_cases h : tx.account ≠ anew
  · rw [if_pos h, if_pos h]
    rfl
  · rw [if_neg h, if_neg h]
    rfl

theorem editedState_nextOid (s : State) (tx : Transaction) (tnew : TransactionType)
    (cnew anew : String) (vnew : Int) (desc : String) :
    (editedState s tx tnew cnew anew vnew desc).nextOid = s.nextOid := by
  unfold editedState
  dsimp only
  by_cases h : tx.account ≠ anew
  · rw [if_pos h, if_pos h]
    rfl
  · rw [if_neg h, if_neg h]
    rfl

theorem editedState_income (s : State) (tx : Transaction) (tnew : TransactionType)
    (cnew anew : String) (vnew : Int) (desc : String) :
    (editedState s tx tnew cnew anew vnew desc).income_categories = s.income_categories := by
  unfold editedState
  dsimp only
  by_cases h : tx.account ≠ anew
  · rw [if_pos h, if_pos h]
    rfl
  · rw [if_neg h, if_neg h]
    rfl

theorem editedState_expense (s : State) (tx : Transaction) (tnew : TransactionType)
    (cnew anew : String) (vnew : Int) (desc : String) :
    (editedState s tx tnew cnew anew vnew desc).expense_categories = s.expense_categories := by
  unfold editedState
  dsimp only
  by_cases h : tx.account ≠ anew
  · rw [if_pos h, if_pos h]
    rfl
  · rw [if_neg h, if_neg h]
    rfl

theorem editedState_names (s : State) (tx : Transaction) (tnew : TransactionType)
    (cnew anew : String) (vnew : Int) (desc : String) :
    (editedState s tx tnew cnew anew vnew desc).accounts.map Account.account_name
      = s.accounts.map Account.account_name := by
  unfold editedState
  dsimp only
  by_cases h : tx.account ≠ anew
  · rw [if_pos h, if_pos h]
    rw [setAccount_names _ _ _ (fun a => update_balance_name a _ _),
        setAccount_names _ _ _ (fun a => add_transaction_oid_name a _)]
    dsimp only
    rw [setAccount_names _ _ _ (fun a => remove_transaction_name a _)]
    exact setAccount_names _ _ _ (fun a => reverse_balance_name a _ _)
  · rw [if_neg h, if_neg h]
    rw [setAccount_names _ _ _ (fun a => update_balance_name a _ _)]
    exact setAccount_names _ _ _ (fun a => reverse_balance_name a _ _)

theorem tsTxs_editedState (s : State) (tx : Transaction) (tnew : TransactionType)
    (cnew anew : String) (vnew : Int) (desc : String) :
    tsTxs (editedState s tx tnew cnew anew vnew desc)
      = (tsTxs s).map (editUpd tx tnew cnew anew vnew desc) :=
  tsTxs_heap_map _ (editUpd_oid tx tnew cnew anew vnew desc)
    (editedState_heap s tx tnew cnew anew vnew desc)
    (editedState_tsList s tx tnew cnew anew vnew desc)

theorem consistent_editedState {s : State} {tx : Transaction} {tnew : TransactionType}
    {cnew anew : String} {vnew : Int} {desc : String} (hc : Consistent s)
    (hmem : tx ∈ tsTxs s) :
    Consistent (editedState s tx tnew cnew anew vnew desc) := by
  have hheap := editedState_heap s tx tnew cnew anew vnew desc
  have hfind := fun o => heapFind_heap_map _ (editUpd_oid tx tnew cnew anew vnew desc) hheap o
  constructor
  · rw [editedState_mmList]
    exact hc.mm_aliased
  · rw [editedState_tsList]
    exact hc.ts_nodup
  · intro o ho
    rw [editedState_tsList] at ho
    rw [hfind o]
    have := hc.ts_resolves o ho
    rw [Option.isSome_iff_exists] at this
    obtain ⟨y, hy⟩ := this
    rw [hy]
    rfl
  · rw [hheap, List.map_map]
    have : Transaction.oid ∘ editUpd tx tnew cnew anew vnew desc = Transaction.oid := by
      funext t0
      exact editUpd_oid tx tnew cnew anew vnew desc t0
    rw [this]
    exact hc.heap_oids_nodup
  · rw [tsTxs_editedState, List.map_map]
    have hmapeq : (tsTxs s).map
          (Transaction.transaction_id ∘ editUpd tx tnew cnew anew vnew desc)
        = (tsTxs s).map Transaction.transaction_id := by
      apply List.map_congr_left
      intro y hy
      show (editUpd tx tnew cnew anew vnew desc y).transaction_id = y.transaction_id
      unfold editUpd
      split
      · rename_i hcond
        simp at hcond
        have hytx : y = tx := eq_of_oid_eq hc.heap_oids_nodup (tsTxs_subset_heap hy)
          (tsTxs_subset_heap hmem) hcond
        rw [hytx]
        rfl
      · rfl
    rw [hmapeq]
    exact hc.ids_nodup
  · rw [editedState_names]
    exact hc.names_nodup
  · intro x hx
    rw [hheap] at hx
    rw [List.mem_map] at hx
    obtain ⟨y, hy, rfl⟩ := hx
    rw [editedState_nextOid, editUpd_oid]
    exact hc.oid_bound y hy

theorem add_category_state_cases (cat ti : String) (s : State) :
    (add_category cat ti s).2 = s ∨
    (∃ t c, validate_transaction_type ti = .ok t ∧
      validate_non_empty_string cat = .ok c ∧
      (get_categories s t).contains c = false ∧
      (add_category cat ti s).2 = set_categories s t (get_categories s t ++ [c])) := by
  cases h1 : validate_transaction_type ti with
  | error e =>
    left
    unfold add_category
    simp only [h1]
  | ok t =>
  cases h2 : validate_non_empty_string cat with
  | error e =>
    left
    unfold add_category
    simp only [h1, h2]
  | ok c =>
  cases h3 : (get_categories s t).contains c with
  | true =>
    left
    unfold add_category
    simp only [h1, h2, h3, if_pos]
  | false =>
    right
    refine ⟨t, c, rfl, rfl, h3, ?_⟩
    unfold add_category
    simp only [h1, h2, h3, Bool.false_eq_true, if_false]

theorem edit_category_state_cases (old new ti : String) (s : State) :
    (edit_category old new ti s).2 = s ∨
    (∃ t oldc newc, validate_transaction_type ti = .ok t ∧
      validate_non_empty_string old = .ok oldc ∧
      validate_non_empty_string new = .ok newc ∧
      (get_categories s t).contains oldc = true ∧
      ¬((get_categories s t).contains newc = true ∧ newc ≠ oldc) ∧
      (edit_category old new ti s).2 = renamedState s t oldc newc) := by
  cases h1 : validate_transaction_type ti with
  | error e =>
    left
    unfold edit_category
    simp only [h1]
  | ok t =>
  cases h2 : validate_non_empty_string old with
  | error e =>
    left
    unfold edit_category
    simp only [h1, h2]
  | ok oldc =>
  cases h3 : validate_non_empty_string new with
  | error e =>
    left
    unfold edit_category
    simp only [h1, h2, h3]
  | ok newc =>
  cases h4 : (get_categories s t).contains oldc with
  | false =>
    left
    unfold edit_category
    simp only [h1, h2, h3]
    rw [if_pos]
    rw [h4]
    simp
  | true =>
  by_cases h5 : (get_categories s t).contains newc = true ∧ newc ≠ oldc
  · left
    unfold edit_category
    simp only [h1, h2, h3]
    rw [if_neg (by rw [h4]; simp), if_pos h5]
  · right
    exact ⟨t, oldc, newc, rfl, rfl, rfl, h4, h5,
      by rw [edit_category_ok h1 h2 h3 h4 h5]⟩

theorem delete_category_state_cases (cat ti : String) (s : State) :
    (delete_category cat ti s).2 = s ∨
    (∃ t c, validate_transaction_type ti = .ok t ∧
      validate_non_empty_string cat = .ok c ∧
      (get_categories s t).contains c = true ∧
      (mmTxs s).filter (fun tx => tx.category == c && tx.transaction_type == t) = [] ∧
      (delete_category cat ti s).2 = set_categories s t ((get_categories s t).erase c)) := by
  cases h1 : validate_transaction_type ti with
  | error e =>
    left
    unfold delete_category
    simp only [h1]
  | ok t =>
  cases h2 : validate_non_empty_string cat with
  | error e =>
    left
    unfold delete_category
    simp only [h1, h2]
  | ok c =>
  cases h3 : (get_categories s t).contains c with
  | false =>
    left
    unfold delete_category
    simp only [h1, h2]
    rw [if_pos]
    rw [h3]
    simp
  | true =>
  by_cases h4 : (mmTxs s).filter (fun tx => tx.category == c && tx.transaction_type == t) = []
  · right
    refine ⟨t, c, rfl, rfl, h3, h4, ?_⟩
    unfold delete_category
    simp only [h1, h2]
    rw [if_neg (by rw [h3]; simp)]
    rw [if_neg (by rw [h4]; simp)]
  · left
    unfold delete_category
    simp only [h1, h2]
    rw [if_neg (by rw [h3]; simp)]
    rw [if_pos h4]

theorem get_categories_set_categories_self (s : State) (t : TransactionType) (l : List String) :
    get_categories (set_categories s t l) t = l := by
  cases t <;> rfl

theorem get_categories_set_categories_other (s : State) {t t2 : TransactionType}
    (l : List String) (h : t2 ≠ t) :
    get_categories (set_categories s t l) t2 = get_categories s t2 := by
  cases t <;> cases t2 <;> first | rfl | exact absurd rfl h

theorem tsTxs_set_categories (s : State) (t : TransactionType) (l : List String) :
    tsTxs (set_categories s t l) = tsTxs s := by
  cases t <;> rfl

theorem consistent_set_categories {s : State} (hc : Consistent s)
    (t : TransactionType) (l : List String) : Consistent (set_categories s t l) := by
  constructor
  · cases t <;> exact hc.mm_aliased
  · cases t <;> exact hc.ts_nodup
  · cases t <;> exact hc.ts_resolves
  · cases t <;> exact hc.heap_oids_nodup
  · cases t <;> exact hc.ids_nodup
  · cases t <;> exact hc.names_nodup
  · cases t <;> exact hc.oid_bound

/-- The in-place transaction rename performed by `edit_category`. -/
def renameUpd (s : State) (t : TransactionType) (oldc newc : String) :
    Transaction → Transaction :=
  fun tx => if (mmOids s).contains tx.oid ∧ tx.category = oldc ∧ tx.transaction_type = t
            then { tx with category := newc } else tx

theorem renameUpd_oid (s : State) (t : TransactionType) (oldc newc : String)
    (tx : Transaction) : (renameUpd s t oldc newc tx).oid = tx.oid := by
  unfold renameUpd
  split <;> rfl

theorem renameUpd_id (s : State) (t : TransactionType) (oldc newc : String)
    (tx : Transaction) :
    (renameUpd s t oldc newc tx).transaction_id = tx.transaction_id := by
  unfold renameUpd
  split <;> rfl

theorem renamedState_heap (s : State) (t : TransactionType) (oldc newc : String) :
    (renamedState s t oldc newc).heap = s.heap.map (renameUpd s t oldc newc) := by
  cases t <;> rfl

theorem renamedState_tsList (s : State) (t : TransactionType) (oldc newc : String) :
    (renamedState s t oldc newc).tsList = s.tsList := by
  cases t <;> rfl

theorem renamedState_mmList (s : State) (t : TransactionType) (oldc newc : String) :
    (renamedState s t oldc newc).mmList = s.mmList := by
  cases t <;> rfl

theorem renamedState_nextOid (s : State) (t : TransactionType) (oldc newc : String) :
    (renamedState s t oldc newc).nextOid = s.nextOid := by
  cases t <;> rfl

theorem renamedState_accounts (s : State) (t : TransactionType) (oldc newc : String) :
    (renamedState s t oldc newc).accounts = s.accounts := by
  cases t <;> rfl

theorem tsTxs_renamedState (s : State) (t : TransactionType) (oldc newc : String) :
    tsTxs (renamedState s t oldc newc) = (tsTxs s).map (renameUpd s t oldc newc) :=
  tsTxs_heap_map _ (renameUpd_oid s t oldc newc) (renamedState_heap s t oldc newc)
    (renamedState_tsList s t oldc newc)

theorem consistent_renamedState {s : State} (hc : Consistent s)
    (t : TransactionType) (oldc newc : String) : Consistent (renamedState s t oldc newc) := by
  have hheap := renamedState_heap s t oldc newc
  constructor
  · rw [renamedState_mmList]
    exact hc.mm_aliased
  · rw [renamedState_tsList]
    exact hc.ts_nodup
  · intro o ho
    rw [renamedState_tsList] at ho
    rw [heapFind_heap_map _ (renameUpd_oid s t oldc newc) hheap o]
    have := hc.ts_resolves o ho
    rw [Option.isSome_iff_exists] at this
    obtain ⟨y, hy⟩ := this
    rw [hy]
    rfl
  · rw [hheap, List.map_map]
    have he : Transaction.oid ∘ renameUpd s t oldc newc = Transaction.oid := by
      funext t0
      exact renameUpd_oid s t oldc newc t0
    rw [he]
    exact hc.heap_oids_nodup
  · rw [tsTxs_renamedState, List.map_map]
    have he : Transaction.transaction_id ∘ renameUpd s t oldc newc
        = Transaction.transaction_id := by
      funext t0
      exact renameUpd_id s t oldc newc t0
    rw [he]
    exact hc.ids_nodup
  · rw [renamedState_accounts]
    exact hc.names_nodup
  · intro x hx
    rw [hheap, List.mem_map] at hx
    obtain ⟨y, hy, rfl⟩ := hx
    rw [renamedState_nextOid, renameUpd_oid]
    exact hc.oid_bound y hy

theorem replaceFirst_mem_new {l : List String} {old : String} (new : String)
    (h : old ∈ l) : new ∈ replaceFirst l old new := by
  induction l with
  | nil => cases h
  | cons x xs ih =>
    unfold replaceFirst
    by_cases hx : x = old
    · rw [if_pos hx]
      exact List.mem_cons_self _ _
    · rw [if_neg hx]
      have : old ∈ xs := by
        cases h with
        | head => exact absurd rfl hx
        | tail _ h2 => exact h2
      exact List.mem_cons_of_mem _ (ih this)

theorem replaceFirst_mem_of_ne {l : List String} {old new c : String}
    (hne : c ≠ old) (h : c ∈ l) : c ∈ replaceFirst l old new := by
  induction l with
  | nil => cases h
  | cons x xs ih =>
    unfold replaceFirst
    by_cases hx : x = old
    · rw [if_pos hx]
      cases h with
      | head => exact absurd hx hne
      | tail _ h2 => exact List.mem_cons_of_mem _ h2
    · rw [if_neg hx]
      cases h with
      | head => exact List.mem_cons_self _ _
      | tail _ h2 => exact List.mem_cons_of_mem _ (ih h2)

theorem mmTxs_eq_tsTxs_of_aliased {s : State} (h : s.mmList = none) :
    mmTxs s = tsTxs s := by
  unfold mmTxs mmOids
  rw [h]
  rfl

theorem mem_of_contains {l : List String} {c : String} (h : l.contains c = true) :
    c ∈ l := by
  simpa [List.contains] using h

theorem get_categories_addedState (s : State) (t : TransactionType) (c an : String)
    (amtv : Int) (now : Nat) (desc : String) (t2 : TransactionType) :
    get_categories (addedState s t c an amtv now desc) t2 = get_categories s t2 := by
  cases t2 <;> rfl

theorem get_categories_editedState (s : State) (tx : Transaction)
    (tnew : TransactionType) (cnew anew : String) (vnew : Int) (desc : String)
    (t2 : TransactionType) :
    get_categories (editedState s tx tnew cnew anew vnew desc) t2 = get_categories s t2 := by
  cases t2 with
  | income => exact editedState_income s tx tnew cnew anew vnew desc
  | expense => exact editedState_expense s tx tnew cnew anew vnew desc

theorem get_categories_removedState (s : State) (tx : Transaction) (t2 : TransactionType) :
    get_categories (removedState s tx) t2 = get_categories s t2 := by
  cases t2 <;> rfl

theorem get_categories_renamedState_self (s : State) (t : TransactionType)
    (oldc newc : String) :
    get_categories (renamedState s t oldc newc) t
      = replaceFirst (get_categories s t) oldc newc := by
  cases t <;> rfl

theorem get_categories_renamedState_other (s : State) {t t2 : TransactionType}
    (oldc newc : String) (h : t2 ≠ t) :
    get_categories (renamedState s t oldc newc) t2 = get_categories s t2 := by
  cases t <;> cases t2 <;> first | rfl | exact absurd rfl h

/-- Operations of the amended C3 claim: the six core transaction/category
operations, where an `edit_transaction` that supplies a type input must also
supply a category input. -/
def SafeOpC3 : Op → Prop
  | .editTx _ ti cat _ _ _ => pyStrip cat ≠ "" ∨ pyStrip ti = ""
  | .addAccount _ _ => False
  | .editAccountName _ _ => False
  | .delAccount _ => False
  | _ => True

theorem catInv_step {s : State} (op : Op) (hc : Consistent s) (hinv : CatInv s)
    (hop : SafeOpC3 op) :
    CatInv (applyOp op s) ∧ Consistent (applyOp op s) := by
  cases op with
  | addTx ti cat acct amt desc now =>
    show CatInv (add_transaction ti cat acct amt desc now s).2
      ∧ Consistent (add_transaction ti cat acct amt desc now s).2
    rcases add_transaction_state_cases ti cat acct amt desc now s with h | h
    · rw [h]
      exact ⟨hinv, hc⟩
    · obtain ⟨t, c, an, a0, v, h1, h2, h3, h4, h5, h6, h7⟩ := h
      rw [h7]
      refine ⟨?_, consistent_addedState hc⟩
      intro y hy
      rw [tsTxs_addedState hc.ts_resolves hc.oid_bound, List.mem_append] at hy
      rw [get_categories_addedState]
      cases hy with
      | inl hmem => exact hinv y hmem
      | inr hnew =>
        have : y = mkTransaction s t c an v now desc := by simpa using hnew
        subst this
        show c ∈ get_categories s t
        exact mem_of_contains h3
  | editTx tid ti cat acct amt desc =>
    show CatInv (edit_transaction tid ti cat acct amt desc s).2
      ∧ Consistent (edit_transaction tid ti cat acct amt desc s).2
    rcases edit_transaction_state_cases tid ti cat acct amt desc s with h | h
    · rw [h]
      exact ⟨hinv, hc⟩
    · obtain ⟨tx, tnew, cnew, anew, vnew, h0, h1, h2, h3, h4, h7⟩ := h
      have hmem := (get_transaction_mem h0).1
      rw [h7]
      refine ⟨?_, consistent_editedState hc hmem⟩
      intro y hy
      rw [tsTxs_editedState, List.mem_map] at hy
      obtain ⟨y0, hy0, rfl⟩ := hy
      rw [get_categories_editedState]
      show (editUpd tx tnew cnew anew vnew desc y0).category
        ∈ get_categories s (editUpd tx tnew cnew anew vnew desc y0).transaction_type
      unfold editUpd
      split
      · rename_i hcond
        simp at hcond
        have hy0tx : y0 = tx := eq_of_oid_eq hc.heap_oids_nodup (tsTxs_subset_heap hy0)
          (tsTxs_subset_heap hmem) hcond
        subst hy0tx
        show cnew ∈ get_categories s tnew
        by_cases hcat : pyStrip cat = ""
        · have hcnew : cnew = y0.category := by
            unfold resolve_category at h2
            rw [if_pos hcat] at h2
            exact (Except.ok.inj h2).symm
          have htnew : tnew = y0.transaction_type := by
            cases hop with
            | inl hne =>
              exact absurd hcat hne
            | inr hti =>
              unfold resolve_type at h1
              rw [if_pos hti] at h1
              exact (Except.ok.inj h1).symm
          rw [hcnew, htnew]
          exact hinv y0 hy0
        · unfold resolve_category at h2
          rw [if_neg hcat] at h2
          dsimp only at h2
          split at h2
          · rename_i hvalid
            rw [← Except.ok.inj h2]
            exact mem_of_contains hvalid
          · cases h2
      · exact hinv y0 hy0
  | delTx tid =>
    show CatInv (delete_transaction tid s).2 ∧ Consistent (delete_transaction tid s).2
    rcases delete_transaction_state_cases tid s with h | h
    · rw [h]
      exact ⟨hinv, hc⟩
    · obtain ⟨tx, h0, h7⟩ := h
      have hmem := (get_transaction_mem h0).1
      rw [h7]
      refine ⟨?_, consistent_removedState hc hmem⟩
      intro y hy
      obtain ⟨A, B, hAB, hAB2, _, _⟩ := tsTxs_removedState hc hmem
      rw [hAB2] at hy
      have hy2 : y ∈ tsTxs s := by
        rw [hAB, List.mem_append]
        rw [List.mem_append] at hy
        cases hy with
        | inl hl => exact Or.inl hl
        | inr hr => exact Or.inr (List.mem_cons_of_mem _ hr)
      rw [get_categories_removedState]
      exact hinv y hy2
  | addAccount n b => exact absurd hop (by simp [SafeOpC3])
  | editAccountName o n => exact absurd hop (by simp [SafeOpC3])
  | delAccount n => exact absurd hop (by simp [SafeOpC3])
  | addCat cat ti =>
    show CatInv (add_category cat ti s).2 ∧ Consistent (add_category cat ti s).2
    rcases add_category_state_cases cat ti s with h | h
    · rw [h]
      exact ⟨hinv, hc⟩
    · obtain ⟨t, c, h1, h2, h3, h7⟩ := h
      rw [h7]
      refine ⟨?_, consistent_set_categories hc _ _⟩
      intro y hy
      rw [tsTxs_set_categories] at hy
      by_cases ht : y.transaction_type = t
      · rw [ht, get_categories_set_categories_self]
        exact List.mem_append_left _ (by rw [← ht]; exact hinv y hy)
      · rw [get_categories_set_categories_other s _ ht]
        exact hinv y hy
  | editCat old new ti =>
    show CatInv (edit_category old new ti s).2 ∧ Consistent (edit_category old new ti s).2
    rcases edit_category_state_cases old new ti s with h | h
    · rw [h]
      exact ⟨hinv, hc⟩
    · obtain ⟨t, oldc, newc, h1, h2, h3, h4, h5, h7⟩ := h
      rw [h7]
      refine ⟨?_, consistent_renamedState hc _ _ _⟩
      intro y hy
      rw [tsTxs_renamedState, List.mem_map] at hy
      obtain ⟨y0, hy0, rfl⟩ := hy
      have hcont : (mmOids s).contains y0.oid = true := by
        unfold mmOids
        rw [hc.mm_aliased]
        show (s.tsList.contains y0.oid) = true
        simpa [List.contains] using (oid_mem_tsList_of_mem_tsTxs hy0).1
      show (renameUpd s t oldc newc y0).category
        ∈ get_categories (renamedState s t oldc newc)
            (renameUpd s t oldc newc y0).transaction_type
      unfold renameUpd
      split
      · rename_i hcond
        obtain ⟨_, hcat, htyp⟩ := hcond
        show newc ∈ get_categories (renamedState s t oldc newc) y0.transaction_type
        rw [htyp, get_categories_renamedState_self]
        exact replaceFirst_mem_new newc (mem_of_contains h4)
      · rename_i hcond
        by_cases htyp : y0.transaction_type = t
        · have hcat : y0.category ≠ oldc := by
            intro he
            exact hcond ⟨hcont, he, htyp⟩
          rw [htyp, get_categories_renamedState_self]
          exact replaceFirst_mem_of_ne hcat (by rw [← htyp]; exact hinv y0 hy0)
        · rw [get_categories_renamedState_other s _ _ htyp]
          exact hinv y0 hy0
  | delCat cat ti =>
    show CatInv (delete_category cat ti s).2 ∧ Consistent (delete_category cat ti s).2
    rcases delete_category_state_cases cat ti s with h | h
    · rw [h]
      exact ⟨hinv, hc⟩
    · obtain ⟨t, c, h1, h2, h3, h4, h7⟩ := h
      rw [h7]
      refine ⟨?_, consistent_set_categories hc _ _⟩
      intro y hy
      rw [tsTxs_set_categories] at hy
      by_cases ht : y.transaction_type = t
      · rw [ht, get_categories_set_categories_self]
        have hne : y.category ≠ c := by
          intro he
          have hymm : y ∈ mmTxs s := by
            rw [mmTxs_eq_tsTxs_of_aliased hc.mm_aliased]
            exact hy
          have : y ∈ (mmTxs s).filter
              (fun tx => tx.category == c && tx.transaction_type == t) := by
            rw [List.mem_filter]
            exact ⟨hymm, by simp [he, ht]⟩
          rw [h4] at this
          cases this
        rw [List.mem_erase_of_ne hne]
        rw [← ht]
        exact hinv y hy
      · rw [get_categories_set_categories_other s _ ht]
        exact hinv y hy

/-- Counterexample to C3 as stated: on a consistent store satisfying the
category invariant, a single `edit_transaction` that changes the type to
expense while leaving the category input blank succeeds and leaves a
transaction whose kept category `"Salary"` is not in the expense category
list. -/
theorem category_invariant_c3_counterexample :
    Consistent sampleState ∧ CatInv sampleState ∧
    (∃ tx0, (edit_transaction 1 "expense" "" "" "" "" sampleState).1 = .ok tx0) ∧
    ¬ CatInv (edit_transaction 1 "expense" "" "" "" "" sampleState).2 := by
  refine ⟨by constructor <;> decide, by unfold CatInv; decide, ⟨_, rfl⟩, ?_⟩
  unfold CatInv
  decide

/-- C3 (amended): starting from a consistent store satisfying the category
invariant, the invariant is preserved by any sequence of the six core
operations (add/edit/delete transaction, category add/rename/delete)
provided every `edit_transaction` with a non-blank type input also has a
non-blank category input; with a blank category input and a changed type the
old category is kept without revalidation and the invariant can fail. -/
theorem category_invariant_c3 (ops : List Op) (s : State) (hc : Consistent s)
    (hinv : CatInv s) (hsafe : ∀ op ∈ ops, SafeOpC3 op) :
    CatInv (applyOps ops s) ∧ Consistent (applyOps ops s) := by
  induction ops generalizing s with
  | nil => exact ⟨hinv, hc⟩
  | cons op rest ih =>
    show CatInv (applyOps rest (applyOp op s)) ∧ Consistent (applyOps rest (applyOp op s))
    have hstep := catInv_step op hc hinv (hsafe op (by simp))
    exact ih (applyOp op s) hstep.2 hstep.1 (fun o ho => hsafe o (by simp [ho]))

/-- Witness for C3: a concrete mixed sequence (add, safe edit, category add,
rename, delete of an unused category, transaction delete) on the sample
store. -/
theorem category_invariant_c3_witness :
    CatInv (applyOps
      [Op.addTx "income" "Salary" "Checking" "50" "d" 0,
       Op.editTx 1 "expense" "food" "" "" "x",
       Op.addCat "Bonus" "income",
       Op.editCat "Bonus" "Extra" "income",
       Op.delCat "Extra" "income",
       Op.delTx 2] sampleState) ∧
    Consistent (applyOps
      [Op.addTx "income" "Salary" "Checking" "50" "d" 0,
       Op.editTx 1 "expense" "food" "" "" "x",
       Op.addCat "Bonus" "income",
       Op.editCat "Bonus" "Extra" "income",
       Op.delCat "Extra" "income",
       Op.delTx 2] sampleState) :=
  category_invariant_c3 _ sampleState (by constructor <;> decide)
    (by unfold CatInv; decide)
    (by
      intro op hop
      simp only [List.mem_cons, List.not_mem_nil, or_false] at hop
      rcases hop with rfl | rfl | rfl | rfl | rfl | rfl
      · trivial
      · exact Or.inl (by decide)
      · trivial
      · trivial
      · trivial
      · trivial)

theorem signedSum_append (l1 l2 : List Transaction) :
    signedSum (l1 ++ l2) = signedSum l1 + signedSum l2 := by
  unfold signedSum
  rw [List.map_append, List.sum_append]

theorem signedSum_cons (x : Transaction) (l : List Transaction) :
    signedSum (x :: l) = signedAmt x + signedSum l := by
  unfold signedSum
  rw [List.map_cons, List.sum_cons]

theorem findAccount_accounts_eq {s1 s2 : State} (h : s1.accounts = s2.accounts)
    (name : String) : findAccount s1 name = findAccount s2 name := by
  unfold findAccount
  rw [h]

theorem balanceOf_setAccount {s : State} {n : String} {f : Account → Account}
    (name : String) (hf : ∀ a, (f a).account_name = a.account_name) :
    balanceOf (setAccount s n f) name
      = if name = n then
          (match findAccount s n with
           | some a => (f a).balance
           | none => 0)
        else balanceOf s name := by
  by_cases h : name = n
  · subst h
    rw [if_pos rfl]
    exact balanceOf_setAccount_self hf
  · rw [if_neg h]
    exact balanceOf_setAccount_ne hf h

theorem balanceOf_none {s : State} {name : String}
    (h : findAccount s name = none) : balanceOf s name = 0 := by
  unfold balanceOf
  rw [h]

theorem update_balance_keeps_balance_add (a : Account) (oid : Nat) :
    (a.add_transaction oid).balance = a.balance := rfl

theorem remove_transaction_keeps_balance (a : Account) (oid : Nat) :
    (a.remove_transaction oid).balance = a.balance := rfl

theorem signedAmt_editedTx (tx : Transaction) (tnew : TransactionType)
    (cnew anew : String) (vnew : Int) (desc : String) :
    signedAmt (editedTx tx tnew cnew anew vnew desc)
      = match tnew with
        | .income => vnew
        | .expense => -vnew := by
  cases tnew <;> rfl

theorem signedAmt_match (tx : Transaction) :
    signedAmt tx = match tx.transaction_type with
      | .income => tx.amount
      | .expense => -tx.amount := rfl

theorem reverse_balance_signed (a : Account) (tx : Transaction) :
    (a.reverse_balance tx.amount tx.transaction_type).balance
      = a.balance - signedAmt tx := by
  rw [reverse_balance_balance]
  rfl

theorem update_balance_signed (a : Account) (tnew : TransactionType) (vnew : Int)
    (tx : Transaction) (cnew anew : String) (desc : String) :
    (a.update_balance vnew tnew).balance
      = a.balance + signedAmt (editedTx tx tnew cnew anew vnew desc) := by
  rw [update_balance_balance, signedAmt_editedTx]

theorem editedState_accounts (s : State) (tx : Transaction) (tnew : TransactionType)
    (cnew anew : String) (vnew : Int) (desc : String) :
    (editedState s tx tnew cnew anew vnew desc).accounts
      = (setAccount
          (if tx.account ≠ anew
           then setAccount
              (setAccount
                (setAccount s tx.account
                  (fun a => a.reverse_balance tx.amount tx.transaction_type))
                tx.account (fun a => a.remove_transaction tx.oid))
              anew (fun a => a.add_transaction tx.oid)
           else setAccount s tx.account
              (fun a => a.reverse_balance tx.amount tx.transaction_type))
          anew (fun a => a.update_balance vnew tnew)).accounts := by
  unfold editedState
  dsimp only
  by_cases hd : tx.account ≠ anew
  · rw [if_pos hd, if_pos hd, if_pos hd]
    rfl
  · rw [if_neg hd, if_neg hd, if_neg hd]
    rfl

theorem balanceOf_editedState {s : State} {tx : Transaction} {tnew : TransactionType}
    {cnew anew : String} {vnew : Int} {desc : String} {name : String} {a : Account}
    (hfind : findAccount s name = some a) :
    balanceOf (editedState s tx tnew cnew anew vnew desc) name
      = balanceOf s name
        - (if name = tx.account then signedAmt tx else 0)
        + (if name = anew then signedAmt (editedTx tx tnew cnew anew vnew desc) else 0) := by
  have hbs : balanceOf s name = a.balance := by
    unfold balanceOf
    rw [hfind]
  rw [balanceOf_accounts_eq (editedState_accounts s tx tnew cnew anew vnew desc) name]
  by_cases hd : tx.account ≠ anew
  · rw [if_pos hd]
    rw [balanceOf_setAccount name (fun x => update_balance_name x _ _)]
    by_cases hn2 : name = anew
    · rw [if_pos hn2]
      rw [findAccount_setAccount_self (fun x => add_transaction_oid_name x _)]
      have hne1 : anew ≠ tx.account := fun he => hd he.symm
      rw [findAccount_setAccount_ne (fun x => remove_transaction_name x _) hne1,
          findAccount_setAccount_ne (fun x => reverse_balance_name x _ _) hne1]
      subst hn2
      rw [hfind]
      dsimp only [Option.map]
      have he1 : ((a.add_transaction tx.oid).update_balance vnew tnew).balance
          = a.balance + signedAmt (editedTx tx tnew cnew name vnew desc) := by
        rw [update_balance_balance, signedAmt_editedTx]
        rfl
      rw [he1, hbs, if_neg (fun he => hd he.symm), if_pos rfl]
      omega
    · rw [if_neg hn2]
      rw [balanceOf_setAccount name (fun x => add_transaction_oid_name x _), if_neg hn2]
      rw [balanceOf_setAccount name (fun x => remove_transaction_name x _)]
      by_cases hn1 : name = tx.account
      · rw [if_pos hn1]
        rw [findAccount_setAccount_self (fun x => reverse_balance_name x _ _)]
        rw [← hn1, hfind]
        dsimp only [Option.map]
        rw [remove_transaction_keeps_balance, reverse_balance_signed, hbs,
            if_pos rfl, if_neg hn2]
        omega
      · rw [if_neg hn1]
        rw [balanceOf_setAccount name (fun x => reverse_balance_name x _ _), if_neg hn1]
        rw [if_neg hn1, if_neg hn2]
        omega
  · rw [if_neg hd]
    have hta : tx.account = anew := not_not.mp hd
    rw [balanceOf_setAccount name (fun x => update_balance_name x _ _)]
    by_cases hn2 : name = anew
    · rw [if_pos hn2]
      rw [hta, findAccount_setAccount_self (fun x => reverse_balance_name x _ _)]
      subst hn2
      rw [hfind]
      dsimp only [Option.map]
      rw [update_balance_balance, reverse_balance_signed, hbs,
          if_pos rfl, if_pos rfl, signedAmt_editedTx]
    · rw [if_neg hn2]
      rw [balanceOf_setAccount name (fun x => reverse_balance_name x _ _)]
      rw [if_neg (by rw [hta]; exact hn2)]
      rw [if_neg (by rw [hta]; exact hn2), if_neg hn2]
      omega

/-! ### C1: the balance invariant over transaction operations -/

/-- The account field of the transaction built by `add_transaction`. -/
theorem mkTransaction_account (s : State) (t : TransactionType) (c an : String)
    (amtv : Int) (now : Nat) (desc : String) :
    (mkTransaction s t c an amtv now desc).account = an := rfl

/-- The account field of the transaction produced by `edit_transaction`. -/
theorem editedTx_account (tx : Transaction) (tnew : TransactionType) (cnew anew : String)
    (vnew : Int) (desc : String) :
    (editedTx tx tnew cnew anew vnew desc).account = anew := rfl

theorem signedAmt_mkTransaction (s : State) (t : TransactionType) (c an : String)
    (amtv : Int) (now : Nat) (desc : String) :
    signedAmt (mkTransaction s t c an amtv now desc)
      = match t with | .income => amtv | .expense => -amtv := by
  cases t <;> rfl

/-- Removing one occurrence of `tx` from a transaction list changes the signed
sum over the transactions of `name` by exactly the signed amount of `tx` when
`tx` belongs to `name`. -/
theorem signedSum_filter_at (name : String) (A B : List Transaction) (tx : Transaction) :
    signedSum ((A ++ tx :: B).filter (fun t0 => t0.account == name))
      = signedSum ((A ++ B).filter (fun t0 => t0.account == name))
        + (if name = tx.account then signedAmt tx else 0) := by
  by_cases hn : name = tx.account
  · have hb : (tx.account == name) = true := by simp [hn]
    simp only [List.filter_append, List.filter_cons, hb, if_true,
      signedSum_append, signedSum_cons, if_pos hn]
    omega
  · have hb : (tx.account == name) = false := by
      rw [beq_eq_false_iff_ne]
      exact fun h => hn h.symm
    simp only [List.filter_append, List.filter_cons, hb, Bool.false_eq_true, if_false,
      signedSum_append, if_neg hn]
    omega

/-- Balance change of `delete_transaction`: only the deleted transaction's
account moves, by the reversed signed amount. -/
theorem balanceOf_removedState {s : State} {tx : Transaction} {name : String} {a : Account}
    (hfind : findAccount s name = some a) :
    balanceOf (removedState s tx) name
      = balanceOf s name - (if name = tx.account then signedAmt tx else 0) := by
  have hbs : balanceOf s name = a.balance := by
    unfold balanceOf
    rw [hfind]
  have e1 : balanceOf (removedState s tx) name
      = balanceOf (setAccount
          (setAccount s tx.account (fun x => x.reverse_balance tx.amount tx.transaction_type))
          tx.account (fun x => x.remove_transaction tx.oid)) name :=
    balanceOf_accounts_eq rfl name
  rw [e1, balanceOf_setAccount name (fun x => remove_transaction_name x _)]
  by_cases hn : name = tx.account
  · rw [if_pos hn, ← hn,
        findAccount_setAccount_self (fun x => reverse_balance_name x _ _), hfind]
    dsimp only [Option.map]
    rw [remove_transaction_keeps_balance, reverse_balance_signed, hbs, if_pos rfl]
  · rw [if_neg hn, balanceOf_setAccount name (fun x => reverse_balance_name x _ _),
        if_neg hn, if_neg hn]
    omega

/-- A successful `add_transaction` preserves balance minus signed sum at every
account name. -/
theorem acctNet_addedState {s : State} {t : TransactionType} {c an : String}
    {amtv : Int} {now : Nat} {desc : String} {a0 : Account}
    (hc : Consistent s) (h5 : findAccount s an = some a0) (name : String) :
    acctNet (addedState s t c an amtv now desc) name = acctNet s name := by
  unfold acctNet txsOf
  rw [tsTxs_addedState hc.ts_resolves hc.oid_bound]
  have hfil := signedSum_filter_at name (tsTxs s) [] (mkTransaction s t c an amtv now desc)
  rw [List.append_nil] at hfil
  rw [hfil, mkTransaction_account, signedAmt_mkTransaction, balanceOf_addedState]
  by_cases hn : name = an
  · have hbal : balanceOf s name = a0.balance := by
      unfold balanceOf
      rw [hn, h5]
    rw [if_pos hn, if_pos hn, h5]
    dsimp only
    rw [update_balance_balance, hbal]
    omega
  · rw [if_neg hn, if_neg hn]
    omega

/-- A successful `delete_transaction` preserves balance minus signed sum at
every existing account. -/
theorem acctNet_removedState {s : State} {tx : Transaction} {name : String} {a : Account}
    (hc : Consistent s) (hmem : tx ∈ tsTxs s) (hfind : findAccount s name = some a) :
    acctNet (removedState s tx) name = acctNet s name := by
  obtain ⟨A, B, hAB, hAB2, _, _⟩ := tsTxs_removedState hc hmem
  unfold acctNet txsOf
  rw [hAB2, hAB, signedSum_filter_at name A B tx, balanceOf_removedState hfind]
  omega

/-- A successful `edit_transaction` preserves balance minus signed sum at
every existing account. -/
theorem acctNet_editedState {s : State} {tx : Transaction} {tnew : TransactionType}
    {cnew anew : String} {vnew : Int} {desc : String} {name : String} {a : Account}
    (hc : Consistent s) (hmem : tx ∈ tsTxs s) (hfind : findAccount s name = some a) :
    acctNet (editedState s tx tnew cnew anew vnew desc) name = acctNet s name := by
  obtain ⟨A, B, hAB, hA, hB⟩ := mem_decomp_unique hmem (tsTxs_oids_nodup hc)
  unfold acctNet txsOf
  rw [tsTxs_editedState s tx tnew cnew anew vnew desc, hAB, List.map_append, List.map_cons]
  have hAid : A.map (editUpd tx tnew cnew anew vnew desc) = A := by
    have hid : ∀ y ∈ A, editUpd tx tnew cnew anew vnew desc y = y := by
      intro y hy
      show (if (y.oid == tx.oid) = true then editedTx tx tnew cnew anew vnew desc else y) = y
      rw [if_neg]
      simp only [beq_iff_eq]
      exact hA y hy
    rw [List.map_congr_left hid]
    exact List.map_id A
  have hBid : B.map (editUpd tx tnew cnew anew vnew desc) = B := by
    have hid : ∀ y ∈ B, editUpd tx tnew cnew anew vnew desc y = y := by
      intro y hy
      show (if (y.oid == tx.oid) = true then editedTx tx tnew cnew anew vnew desc else y) = y
      rw [if_neg]
      simp only [beq_iff_eq]
      exact hB y hy
    rw [List.map_congr_left hid]
    exact List.map_id B
  have hTx : editUpd tx tnew cnew anew vnew desc tx = editedTx tx tnew cnew anew vnew desc := by
    show (if (tx.oid == tx.oid) = true then editedTx tx tnew cnew anew vnew desc else tx) = _
    rw [if_pos (by simp)]
  rw [hAid, hBid, hTx,
      signedSum_filter_at name A B (editedTx tx tnew cnew anew vnew desc),
      signedSum_filter_at name A B tx,
      balanceOf_editedState hfind, editedTx_account]
  omega

/-- The operation is one of the three transaction operations quantified over
by the balance invariant. -/
def TxOp : Op → Prop
  | .addTx _ _ _ _ _ _ => True
  | .editTx _ _ _ _ _ _ => True
  | .delTx _ => True
  | _ => False

/-- An account name is stored exactly when it occurs among the account names. -/
theorem findAccount_isSome_iff_mem (s : State) (name : String) :
    (findAccount s name).isSome = true ↔ name ∈ s.accounts.map Account.account_name := by
  unfold findAccount
  rw [List.find?_isSome]
  constructor
  · rintro ⟨x, hx, hb⟩
    exact List.mem_map.mpr ⟨x, hx, by simpa using hb⟩
  · intro hm
    obtain ⟨y, hy, he⟩ := List.mem_map.mp hm
    exact ⟨y, hy, by simp [he]⟩

theorem findAccount_isSome_names_eq {s1 s2 : State}
    (h : s1.accounts.map Account.account_name = s2.accounts.map Account.account_name)
    (name : String) :
    (findAccount s1 name).isSome = (findAccount s2 name).isSome := by
  rw [Bool.eq_iff_iff, findAccount_isSome_iff_mem, findAccount_isSome_iff_mem, h]

/-- One transaction operation: consistency, the stored account names, and
balance minus signed sum at every existing account are all preserved. -/
theorem txop_step {s : State} {op : Op} (hop : TxOp op) (hc : Consistent s) :
    Consistent (applyOp op s)
    ∧ (applyOp op s).accounts.map Account.account_name
        = s.accounts.map Account.account_name
    ∧ (∀ name, (findAccount s name).isSome = true →
        acctNet (applyOp op s) name = acctNet s name) := by
  cases op with
  | addTx ti cat acct amt desc now =>
    show Consistent (add_transaction ti cat acct amt desc now s).2
      ∧ (add_transaction ti cat acct amt desc now s).2.accounts.map Account.account_name
          = s.accounts.map Account.account_name
      ∧ (∀ name, (findAccount s name).isSome = true →
          acctNet (add_transaction ti cat acct amt desc now s).2 name = acctNet s name)
    rcases add_transaction_state_cases ti cat acct amt desc now s with h | h
    · rw [h]
      exact ⟨hc, rfl, fun _ _ => rfl⟩
    · obtain ⟨t, c, an, a0, v, _, _, _, _, h5, _, h7⟩ := h
      rw [h7]
      exact ⟨consistent_addedState hc, addedState_names s t c an v now desc,
        fun name _ => acctNet_addedState hc h5 name⟩
  | editTx tid ti cat acct amt desc =>
    show Consistent (edit_transaction tid ti cat acct amt desc s).2
      ∧ (edit_transaction tid ti cat acct amt desc s).2.accounts.map Account.account_name
          = s.accounts.map Account.account_name
      ∧ (∀ name, (findAccount s name).isSome = true →
          acctNet (edit_transaction tid ti cat acct amt desc s).2 name = acctNet s name)
    rcases edit_transaction_state_cases tid ti cat acct amt desc s with h | h
    · rw [h]
      exact ⟨hc, rfl, fun _ _ => rfl⟩
    · obtain ⟨tx, tnew, cnew, anew, vnew, h0, _, _, _, _, h5⟩ := h
      have hmem := (get_transaction_mem h0).1
      rw [h5]
      refine ⟨consistent_editedState hc hmem, editedState_names s tx tnew cnew anew vnew desc,
        fun name hs => ?_⟩
      obtain ⟨a, ha⟩ := Option.isSome_iff_exists.mp hs
      exact acctNet_editedState hc hmem ha
  | delTx tid =>
    show Consistent (delete_transaction tid s).2
      ∧ (delete_transaction tid s).2.accounts.map Account.account_name
          = s.accounts.map Account.account_name
      ∧ (∀ name, (findAccount s name).isSome = true →
          acctNet (delete_transaction tid s).2 name = acctNet s name)
    rcases delete_transaction_state_cases tid s with h | h
    · rw [h]
      exact ⟨hc, rfl, fun _ _ => rfl⟩
    · obtain ⟨tx, h0, h2⟩ := h
      have hmem := (get_transaction_mem h0).1
      rw [h2]
      refine ⟨consistent_removedState hc hmem, removedState_names s tx, fun name hs => ?_⟩
      obtain ⟨a, ha⟩ := Option.isSome_iff_exists.mp hs
      exact acctNet_removedState hc hmem ha
  | addAccount n b => exact absurd hop (by simp [TxOp])
  | editAccountName o n => exact absurd hop (by simp [TxOp])
  | delAccount n => exact absurd hop (by simp [TxOp])
  | addCat c t => exact absurd hop (by simp [TxOp])
  | editCat o n t => exact absurd hop (by simp [TxOp])
  | delCat c t => exact absurd hop (by simp [TxOp])

/-- A sequence of transaction operations preserves the stored account names
and consistency. -/
theorem txops_names (ops : List Op) (s : State) (hc : Consistent s)
    (hops : ∀ op ∈ ops, TxOp op) :
    (applyOps ops s).accounts.map Account.account_name
        = s.accounts.map Account.account_name
    ∧ Consistent (applyOps ops s) := by
  induction ops generalizing s with
  | nil => exact ⟨rfl, hc⟩
  | cons op rest ih =>
    have hstep := txop_step (hops op (List.mem_cons_self op rest)) hc
    have hrest := ih (applyOp op s) hstep.1 (fun o ho => hops o (List.mem_cons_of_mem _ ho))
    refine ⟨?_, hrest.2⟩
    show (applyOps rest (applyOp op s)).accounts.map Account.account_name
        = s.accounts.map Account.account_name
    rw [hrest.1, hstep.2.1]

/-- A sequence of transaction operations preserves balance minus signed sum at
every existing account. -/
theorem txops_acctNet (ops : List Op) (s : State) (hc : Consistent s)
    (hops : ∀ op ∈ ops, TxOp op) (name : String)
    (hsome : (findAccount s name).isSome = true) :
    acctNet (applyOps ops s) name = acctNet s name := by
  induction ops generalizing s with
  | nil => rfl
  | cons op rest ih =>
    have hstep := txop_step (hops op (List.mem_cons_self op rest)) hc
    have hsome2 : (findAccount (applyOp op s) name).isSome = true := by
      rw [findAccount_isSome_names_eq hstep.2.1 name]
      exact hsome
    show acctNet (applyOps rest (applyOp op s)) name = acctNet s name
    rw [ih (applyOp op s) hstep.1 (fun o ho => hops o (List.mem_cons_of_mem _ ho)) hsome2]
    exact hstep.2.2 name hsome

/-- C1: starting from a consistent store in which every account's balance
equals its initial balance plus the signed sum (income amounts minus expense
amounts) over its current transaction set, that equation still holds for every
account after any sequence of add_transaction / edit_transaction /
delete_transaction operations; and a successful edit_transaction whose
resolved type, account, and amount coincide with the current ones (e.g. blank
inputs) leaves every balance exactly unchanged. -/
theorem balance_invariant_c1 :
    (∀ (initial_balance : String → Int) (ops : List Op) (s : State),
      Consistent s → (∀ op ∈ ops, TxOp op) →
      (∀ name, (findAccount s name).isSome = true →
        balanceOf s name = initial_balance name + signedSum (txsOf s name)) →
      (∀ name, (findAccount (applyOps ops s) name).isSome = true →
        balanceOf (applyOps ops s) name
          = initial_balance name + signedSum (txsOf (applyOps ops s) name)))
  ∧ (∀ (tid : Nat) (ti cat acct amt desc : String) (s : State) (tx : Transaction)
      (cnew : String),
      get_transaction s tid = some tx →
      resolve_type ti tx.transaction_type = .ok tx.transaction_type →
      resolve_category s cat tx.category tx.transaction_type = .ok cnew →
      resolve_account s acct tx.account = .ok tx.account →
      resolve_amount amt tx.amount = .ok tx.amount →
      ∀ name, balanceOf (edit_transaction tid ti cat acct amt desc s).2 name
        = balanceOf s name) := by
  constructor
  · intro ib ops s hc hops hinv name hsomeF
    have hnames := (txops_names ops s hc hops).1
    have hsome : (findAccount s name).isSome = true := by
      rw [← findAccount_isSome_names_eq hnames name]
      exact hsomeF
    have h1 := txops_acctNet ops s hc hops name hsome
    have hbase := hinv name hsome
    unfold acctNet at h1
    omega
  · intro tid ti cat acct amt desc s tx cnew h0 h1 h2 h3 h4 name
    rw [edit_transaction_ok h0 h1 h2 h3 h4]
    cases hf : findAccount s name with
    | some a =>
      rw [balanceOf_editedState hf]
      have he : signedAmt (editedTx tx tx.transaction_type cnew tx.account tx.amount desc)
          = signedAmt tx := rfl
      rw [he]
      omega
    | none =>
      have hiso := findAccount_isSome_names_eq
        (editedState_names s tx tx.transaction_type cnew tx.account tx.amount desc) name
      rw [hf] at hiso
      have hnone2 : findAccount
          (editedState s tx tx.transaction_type cnew tx.account tx.amount desc) name = none := by
        cases h9 : findAccount
            (editedState s tx tx.transaction_type cnew tx.account tx.amount desc) name with
        | none => rfl
        | some b =>
          rw [h9] at hiso
          exact absurd hiso (by simp)
      rw [balanceOf_none hnone2, balanceOf_none hf]

/-- Witness for C1: on the sample store (initial balance 5000 for every
account, one income of 5000 on Checking), an add of 25.00 income followed by a
delete of transaction 1 keeps the balance equation at Checking; and an edit of
transaction 1 with all resolving inputs blank leaves Checking's balance
unchanged. -/
theorem balance_invariant_c1_witness :
    balanceOf (applyOps [Op.addTx "income" "Salary" "Checking" "25.00" "d" 7, Op.delTx 1]
        sampleState) "Checking"
      = (fun _ : String => (5000 : Int)) "Checking"
        + signedSum (txsOf (applyOps
            [Op.addTx "income" "Salary" "Checking" "25.00" "d" 7, Op.delTx 1]
            sampleState) "Checking")
  ∧ balanceOf (edit_transaction 1 "" "" "" "" "new note" sampleState).2 "Checking"
      = balanceOf sampleState "Checking" := by
  constructor
  · exact balance_invariant_c1.1 (fun _ => 5000)
      [Op.addTx "income" "Salary" "Checking" "25.00" "d" 7, Op.delTx 1] sampleState
      (by constructor <;> decide)
      (by
        intro op hop
        simp only [List.mem_cons, List.not_mem_nil, or_false] at hop
        rcases hop with rfl | rfl
        · trivial
        · trivial)
      (by
        intro name hs
        rw [findAccount_isSome_iff_mem] at hs
        have hn : name = "Checking" := by simpa [sampleState] using hs
        subst hn
        decide)
      "Checking"
      (by decide)
  · exact balance_invariant_c1.2 1 "" "" "" "" "new note" sampleState
      { oid := 1, transaction_id := 1, date_time := 0, transaction_type := .income,
        category := "Salary", account := "Checking", amount := 5000, description := "pay" }
      "Salary" rfl rfl rfl rfl rfl "Checking"


end MoneyApp
